import Mathlib

/-!
Verification development for the SocialScour backend streaming research
pipeline (FastAPI backend: `main.py`, `rag_service.py`, `storage_service.py`,
`models.py`).  The Python source is shallowly embedded below: strings are
modelled as `List Char`, the collaborator calls (Tavily search, Gemini model)
are modelled as explicit oracle values describing the collaborator's
behaviour during one run, and the stateful persistence calls are modelled as
an explicit list of persistence actions produced by a run.
-/

namespace SocialScour

/-! ## Basic Python string primitives -/

/-- The double-quote character (used pervasively in the wire protocol). -/
def qc : Char := '\"'

/-- The backslash character. -/
def bs : Char := '\\'

/-- Python `str.strip()` whitespace set: space, tab, newline, carriage
return, vertical tab, form feed. -/
def pyWs (c : Char) : Bool :=
  c = ' ' || c = '\t' || c = '\n' || c = '\r' || c = '\x0b' || c = '\x0c'

/-- Python `str.strip()`: drop leading and trailing whitespace. -/
def pyStrip (l : List Char) : List Char :=
  ((l.dropWhile pyWs).reverse.dropWhile pyWs).reverse

/-- Boolean prefix test (Python `str.startswith`). -/
def lpre : List Char → List Char → Bool
  | [], _ => true
  | _ :: _, [] => false
  | a :: as, b :: bs => a = b && lpre as bs

/-- Fuel-driven worker for `replaceAll` (the fuel is an upper bound on
the list length, so exhaustion is unreachable). -/
def replaceAllF (pat rep : List Char) : Nat → List Char → List Char
  | _, [] => []
  | 0, l => l
  | f + 1, c :: cs =>
    if pat ≠ [] ∧ lpre pat (c :: cs) = true then
      rep ++ replaceAllF pat rep f ((c :: cs).drop pat.length)
    else
      c :: replaceAllF pat rep f cs

/-- Python `str.replace(pat, rep)`: replace all leftmost non-overlapping
occurrences of `pat` by `rep` (for non-empty `pat`). -/
def replaceAll (pat rep l : List Char) : List Char :=
  replaceAllF pat rep l.length l

/-- Fuel-driven worker for `pySplit`. -/
def pySplitF (sep : List Char) : Nat → List Char → List (List Char)
  | _, [] => [[]]
  | 0, l => [l]
  | f + 1, c :: cs =>
    if sep ≠ [] ∧ lpre sep (c :: cs) = true then
      [] :: pySplitF sep f ((c :: cs).drop sep.length)
    else
      match pySplitF sep f cs with
      | [] => [[c]]
      | p :: ps => (c :: p) :: ps

/-- Python `str.split(sep)` for a non-empty separator `sep`: split at all
leftmost non-overlapping occurrences. -/
def pySplit (sep l : List Char) : List (List Char) :=
  pySplitF sep l.length l

/-- Python `sub in s`: substring containment. -/
def containsSub (pat : List Char) : List Char → Bool
  | [] => lpre pat []
  | c :: cs => lpre pat (c :: cs) || containsSub pat cs

/-- Python `" ".join(parts)`. -/
def spaceJoin : List (List Char) → List Char
  | [] => []
  | [t] => t
  | t :: ts => t ++ ' ' :: spaceJoin ts

theorem dropWhile_len_le (p : Char → Bool) : ∀ l : List Char, (l.dropWhile p).length ≤ l.length
  | [] => Nat.le_refl _
  | c :: cs => by
    rw [List.dropWhile_cons]
    split
    · exact Nat.le_trans (dropWhile_len_le p cs) (Nat.le_succ _)
    · simp

/-- Fuel-driven worker for `pySplitWs`. -/
def pySplitWsF : Nat → List Char → List (List Char)
  | _, [] => []
  | 0, _ => []
  | f + 1, c :: cs =>
    if pyWs c then pySplitWsF f cs
    else
      (c :: cs).takeWhile (fun x => !pyWs x) ::
        pySplitWsF f ((c :: cs).dropWhile (fun x => !pyWs x))

/-- Python `str.split()` with no argument: split on runs of whitespace,
discarding empty pieces. -/
def pySplitWs (l : List Char) : List (List Char) := pySplitWsF l.length l

/-- Decimal digits of a natural number (helper, fuel-driven). -/
def natDigitsAux : Nat → Nat → List Char
  | 0, _ => []
  | f + 1, n => if n = 0 then [] else natDigitsAux f (n / 10) ++ [Char.ofNat (48 + n % 10)]

/-- Python `str(n)` for a natural number. -/
def natDigits (n : Nat) : List Char :=
  if n = 0 then ['0'] else natDigitsAux n n

/-- Python `str(i)` for an integer. -/
def intRepr (i : Int) : List Char :=
  if i < 0 then '-' :: natDigits i.natAbs else natDigits i.natAbs

/-- Python `int(ds)` on a string of decimal digits. -/
def digitsToNat (ds : List Char) : Nat :=
  ds.foldl (fun a c => 10 * a + (c.toNat - 48)) 0

/-! ## JSON values and a parser for `json.loads`

`main.py` (the orchestrator loop) and `rag_service.py` (the sentiment
classifier) both call Python's `json.loads` on wire payloads and model
responses.  The parser below implements JSON per Python's `json` module
(strict mode): a finite number is modelled exactly, as mantissa and
decimal exponent; the non-standard constants `NaN`, `Infinity` and
`-Infinity` that `json.loads` additionally accepts parse to the dedicated
non-finite values, with `-Infinity` tried after the number match exactly
as in Python's scanner; `\uXXXX` escapes cover surrogate pairs and lone
surrogates. -/

/-- A JSON number: the value is `mant * 10 ^ exp`. -/
structure JNum where
  mant : Int
  exp : Int
deriving DecidableEq

/-- A JSON value.  Object fields are kept in textual order (duplicate keys
possible; Python's `dict` keeps the last occurrence).  `jnan`, `jinf` and
`jninf` are the non-finite floats `json.loads` produces for the
`NaN`, `Infinity` and `-Infinity` constants it additionally accepts. -/
inductive JVal where
  | jnull : JVal
  | jbool : Bool → JVal
  | jnum : JNum → JVal
  | jnan : JVal
  | jinf : JVal
  | jninf : JVal
  | jstr : List Char → JVal
  | jarr : List JVal → JVal
  | jobj : List (List Char × JVal) → JVal

/-- JSON whitespace (what Python's `json` scanner skips): space, tab,
newline, carriage return. -/
def jWs (c : Char) : Bool :=
  c = ' ' || c = '\t' || c = '\n' || c = '\r'

def skipWs (l : List Char) : List Char := l.dropWhile jWs

/-- Value of a hexadecimal digit. -/
def hexVal (c : Char) : Option Nat :=
  if '0' ≤ c ∧ c ≤ '9' then some (c.toNat - 48)
  else if 'a' ≤ c ∧ c ≤ 'f' then some (c.toNat - 87)
  else if 'A' ≤ c ∧ c ≤ 'F' then some (c.toNat - 55)
  else none

/-- The named JSON string escapes. -/
def escChar (c : Char) : Option Char :=
  if c = '\x22' then some '\x22'
  else if c = '\\' then some '\\'
  else if c = '/' then some '/'
  else if c = 'b' then some '\x08'
  else if c = 'f' then some '\x0c'
  else if c = 'n' then some '\n'
  else if c = 'r' then some '\r'
  else if c = 't' then some '\t'
  else none

mutual

/-- Fuel-driven worker for `parseJStrBody`: each call consumes at least
one character and exactly one unit of fuel, so fuel `l.length` never runs
out.  Strict mode: raw control characters below `0x20` are rejected, as
in Python's `json.loads`. -/
def parseJStrBodyF : Nat → List Char → Option (List Char × List Char)
  | _, [] => none
  | 0, _ :: _ => none
  | f + 1, c :: rest =>
    if c = '\x22' then some ([], rest)
    else if c = '\\' then parseJEscF f rest
    else if c.toNat < 32 then none
    else (parseJStrBodyF f rest).map (fun p => (c :: p.1, p.2))

/-- Fuel-driven worker parsing a JSON string escape sequence (after the
backslash).  As in Python's `json.loads`, a `\u` escape denoting a high
surrogate combines with an immediately following `\u` low-surrogate
escape into one code point; a following `\u` escape with broken hex
digits is an error; any other following text leaves the surrogate alone.
A lone surrogate is legal in a Python `str` but has no `Char`
counterpart, so it is represented by `Char.ofNat` of its code point (the
null character). -/
def parseJEscF : Nat → List Char → Option (List Char × List Char)
  | _, [] => none
  | 0, _ :: _ => none
  | f + 1, e :: rest2 =>
    if e = 'u' then
      match rest2 with
      | h1 :: h2 :: h3 :: h4 :: rest3 =>
        (match hexVal h1, hexVal h2, hexVal h3, hexVal h4 with
         | some a, some b, some cc, some d =>
           let n := ((a * 16 + b) * 16 + cc) * 16 + d
           if 0xD800 ≤ n ∧ n ≤ 0xDBFF then
             (match rest3 with
              | c5 :: c6 :: h5 :: h6 :: h7 :: h8 :: rest4 =>
                if c5 = '\\' ∧ c6 = 'u' then
                  (match hexVal h5, hexVal h6, hexVal h7, hexVal h8 with
                   | some a2, some b2, some c2, some d2 =>
                     let n2 := ((a2 * 16 + b2) * 16 + c2) * 16 + d2
                     if 0xDC00 ≤ n2 ∧ n2 ≤ 0xDFFF then
                       (parseJStrBodyF f rest4).map (fun p =>
                         (Char.ofNat (0x10000 + (n - 0xD800) * 0x400 + (n2 - 0xDC00)) ::
                           p.1, p.2))
                     else
                       (parseJStrBodyF f rest3).map (fun p => (Char.ofNat n :: p.1, p.2))
                   | _, _, _, _ => none)
                else (parseJStrBodyF f rest3).map (fun p => (Char.ofNat n :: p.1, p.2))
              | c5 :: c6 :: rest5 =>
                if c5 = '\\' ∧ c6 = 'u' then none
                else (parseJStrBodyF f rest3).map (fun p => (Char.ofNat n :: p.1, p.2))
              | _ => (parseJStrBodyF f rest3).map (fun p => (Char.ofNat n :: p.1, p.2)))
           else
             (parseJStrBodyF f rest3).map (fun p => (Char.ofNat n :: p.1, p.2))
         | _, _, _, _ => none)
      | _ => none
    else
      (match escChar e with
       | some ec => (parseJStrBodyF f rest2).map (fun p => (ec :: p.1, p.2))
       | none => none)

end

/-- Parse the body of a JSON string literal (after the opening quote);
returns the decoded content and the input after the closing quote. -/
def parseJStrBody (l : List Char) : Option (List Char × List Char) :=
  parseJStrBodyF l.length l

/-- The fraction part of a JSON number: `.digits`, skipped entirely when
absent or incomplete (mirrors the optional group `(\.\d+)?` of Python's
`NUMBER_RE`). -/
def parseFracPart : List Char → List Char × List Char
  | [] => ([], [])
  | c :: r =>
    if c = '.' then
      (if r.takeWhile Char.isDigit = [] then ([], c :: r)
       else (r.takeWhile Char.isDigit, r.dropWhile Char.isDigit))
    else ([], c :: r)

/-- The optional sign of a JSON number exponent. -/
def parseExpSign : List Char → Int × List Char
  | [] => (1, [])
  | c2 :: r2 => if c2 = '+' then (1, r2) else if c2 = '-' then (-1, r2) else (1, c2 :: r2)

/-- The exponent part of a JSON number: `[eE][+-]?digits`, skipped
entirely when absent or incomplete. -/
def parseExpPart : List Char → Int × List Char
  | [] => (0, [])
  | c :: r =>
    if c = 'e' ∨ c = 'E' then
      (if (parseExpSign r).2.takeWhile Char.isDigit = [] then (0, c :: r)
       else ((parseExpSign r).1 * (digitsToNat ((parseExpSign r).2.takeWhile Char.isDigit) : Int),
             (parseExpSign r).2.dropWhile Char.isDigit))
    else (0, c :: r)

def parseFracExp (intDigits : List Char) (neg : Bool) (l : List Char) : JNum × List Char :=
  let fracStep := parseFracPart l
  let expStep := parseExpPart fracStep.2
  let mant : Int := (if neg then -1 else 1) * (digitsToNat (intDigits ++ fracStep.1) : Int)
  (⟨mant, expStep.1 - fracStep.1.length⟩, expStep.2)

/-- Parse a JSON number after the optional leading minus sign.  A leading
`0` ends the integer part immediately (JSON forbids leading zeros). -/
def parseNumBody (neg : Bool) : List Char → Option (JNum × List Char)
  | [] => none
  | c :: r =>
    if c = '0' then some (parseFracExp ['0'] neg r)
    else if c.isDigit then
      some (parseFracExp ((c :: r).takeWhile Char.isDigit) neg ((c :: r).dropWhile Char.isDigit))
    else none

/-- Parse a JSON number token. -/
def parseNumber : List Char → Option (JNum × List Char)
  | [] => none
  | c :: r => if c = '-' then parseNumBody true r else parseNumBody false (c :: r)

mutual

/-- Parse one JSON value at the head of the input (no leading whitespace);
fuel-driven recursion. -/
def parseVal : Nat → List Char → Option (JVal × List Char)
  | 0, _ => none
  | f + 1, l =>
    match l with
    | [] => none
    | c :: r =>
      if c = '\x22' then (parseJStrBody r).map (fun p => (JVal.jstr p.1, p.2))
      else if c = '\x7b' then
        (match skipWs r with
         | [] => none
         | c2 :: r2 =>
           if c2 = '\x7d' then some (JVal.jobj [], r2)
           else (parseMembers f (c2 :: r2)).map (fun p => (JVal.jobj p.1, p.2)))
      else if c = '[' then
        (match skipWs r with
         | [] => none
         | c2 :: r2 =>
           if c2 = ']' then some (JVal.jarr [], r2)
           else (parseElems f (c2 :: r2)).map (fun p => (JVal.jarr p.1, p.2)))
      else if c = 't' then
        (if lpre ['r', 'u', 'e'] r then some (JVal.jbool true, r.drop 3) else none)
      else if c = 'f' then
        (if lpre ['a', 'l', 's', 'e'] r then some (JVal.jbool false, r.drop 4) else none)
      else if c = 'n' then
        (if lpre ['u', 'l', 'l'] r then some (JVal.jnull, r.drop 3) else none)
      else if c = 'N' then
        (if lpre ['a', 'N'] r then some (JVal.jnan, r.drop 2) else none)
      else if c = 'I' then
        (if lpre ['n', 'f', 'i', 'n', 'i', 't', 'y'] r then some (JVal.jinf, r.drop 7)
         else none)
      else if c = '-' then
        (match parseNumber (c :: r) with
         | some p => some (JVal.jnum p.1, p.2)
         | none =>
           if lpre ['I', 'n', 'f', 'i', 'n', 'i', 't', 'y'] r then some (JVal.jninf, r.drop 8)
           else none)
      else (parseNumber (c :: r)).map (fun p => (JVal.jnum p.1, p.2))

/-- Parse the members of a JSON object, positioned at a key (whitespace
already skipped); consumes the closing brace. -/
def parseMembers : Nat → List Char → Option (List (List Char × JVal) × List Char)
  | 0, _ => none
  | f + 1, l =>
    match l with
    | [] => none
    | c :: r =>
      if c = '\x22' then
        (match parseJStrBody r with
         | none => none
         | some (key, r1) =>
           (match skipWs r1 with
            | [] => none
            | c2 :: r2 =>
              if c2 = ':' then
                (match parseVal f (skipWs r2) with
                 | none => none
                 | some (v, r3) =>
                   (match skipWs r3 with
                    | [] => none
                    | c3 :: r4 =>
                      if c3 = ',' then
                        (parseMembers f (skipWs r4)).map (fun p => ((key, v) :: p.1, p.2))
                      else if c3 = '\x7d' then some ([(key, v)], r4)
                      else none))
              else none))
      else none

/-- Parse the elements of a JSON array, positioned at a value (whitespace
already skipped); consumes the closing bracket. -/
def parseElems : Nat → List Char → Option (List JVal × List Char)
  | 0, _ => none
  | f + 1, l =>
    (match parseVal f l with
     | none => none
     | some (v, r1) =>
       (match skipWs r1 with
        | [] => none
        | c2 :: r2 =>
          if c2 = ',' then (parseElems f (skipWs r2)).map (fun p => (v :: p.1, p.2))
          else if c2 = ']' then some ([v], r2)
          else none))

end

/-- Python `json.loads`: parse a full document, requiring that only
whitespace remains after the value. -/
def jsonParse (l : List Char) : Option JVal :=
  match parseVal (l.length + 1) (skipWs l) with
  | some (v, rest) => if skipWs rest = [] then some v else none
  | none => none

/-- Python `dict.get k d` on a parsed JSON object (last duplicate key
wins, as in `json.loads`). -/
def jget (fs : List (List Char × JVal)) (k : List Char) (d : JVal) : JVal :=
  match fs.reverse.find? (fun p => p.1 = k) with
  | some p => p.2
  | none => d

/-- Whether a parsed JSON object has a field with the given key
(Python `k in dict`). -/
def jHasKey (fs : List (List Char × JVal)) (k : List Char) : Bool :=
  fs.any (fun p => p.1 = k)

/-! ## Data model (`models.py`)

In `models.py` every id field is declared as
`id: str = str(uuid.uuid4())`: a plain (non-factory) pydantic default,
so the `uuid4` call is evaluated once, when the class is defined, and the
resulting single string is the default for every instance constructed
without an explicit id.  The embedding therefore threads that one
class-definition-time value as an explicit `defaultId` parameter. -/

structure Source where
  id : List Char
  title : List Char
  url : List Char
  subreddit : List Char
  upvotes : Option Nat
  content : List Char
deriving DecidableEq

structure Message where
  id : List Char
  role : List Char
  content : List Char
deriving DecidableEq

/-- A Python float as populated by `json.loads` and carried by the
pydantic models: a finite value modelled as an exact decimal, or one of
the non-finite floats `nan`, `inf` and `-inf` (which `json.loads`
produces for `NaN`, `Infinity` and `-Infinity`, and which a pydantic
`float` field accepts). -/
inductive PyFloat where
  | finite : JNum → PyFloat
  | nan : PyFloat
  | inf : PyFloat
  | ninf : PyFloat
deriving DecidableEq

/-- The verdict produced by the sentiment classifier.  `score` and
`confidence` are Python floats. -/
structure SentimentAnalysis where
  score : PyFloat
  label : List Char
  confidence : PyFloat
deriving DecidableEq

/-- One entry of the list returned by the Tavily search collaborator: a
dict read via `.get('title')`, `.get('url')`, `.get('content')`, each key
possibly absent. -/
structure RawResult where
  title : Option (List Char)
  url : Option (List Char)
  content : Option (List Char)
deriving DecidableEq

/-- `Message(role=..., content=...)` as constructed by
`StorageService.add_message`: the id is the single class-level default. -/
def mkMessage (defaultId role content : List Char) : Message :=
  ⟨defaultId, role, content⟩

/-! ## `rag_service.py`: extraction helpers -/

/-- Scan for the regular expression `reddit\.com/r/([^/]+)` (leftmost
match); returns capture group 1. -/
def extractSubL : List Char → Option (List Char)
  | [] => none
  | c :: cs =>
    if lpre "reddit.com/r/".data (c :: cs) then
      let name := ((c :: cs).drop 13).takeWhile (fun x => x ≠ '/')
      if name ≠ [] then some name else extractSubL cs
    else extractSubL cs

/-- `RAGService.extract_subreddit_from_url`. -/
def extract_subreddit_from_url (url : List Char) : List Char :=
  (extractSubL url).getD "unknown".data

/-- Scan for the regular expression `(\d+)\s*(upvotes?|karma|points?)`
(leftmost match) on already-lowercased text; returns capture group 1 as a
number. -/
def upvoteScanL : List Char → Option Nat
  | [] => none
  | c :: cs =>
    if c.isDigit then
      let ds := (c :: cs).takeWhile Char.isDigit
      let r1 := ((c :: cs).dropWhile Char.isDigit).dropWhile pyWs
      if lpre "upvote".data r1 || lpre "karma".data r1 || lpre "point".data r1 then
        some (digitsToNat ds)
      else upvoteScanL cs
    else upvoteScanL cs

/-- `RAGService.extract_upvotes_from_content` (0 when no match). -/
def extract_upvotes_from_content (content : List Char) : Nat :=
  (upvoteScanL (content.map Char.toLower)).getD 0

/-! ## `rag_service.py`: collaborator oracles

One run makes at most one structured Gemini call (sentiment), one
streaming Gemini call (report), and one Tavily search call.  Each oracle
value fixes what the collaborator did during the run. -/

/-- Behaviour of `generate_content` for the sentiment call:
the call raised; the response was falsy / had no usable `text`; or it
returned the given response text. -/
inductive GemSentOutcome where
  | raises : List Char → GemSentOutcome
  | noText : GemSentOutcome
  | text : List Char → GemSentOutcome
deriving DecidableEq

/-- One chunk of the Gemini stream: an optional `text` attribute (absent
attribute modelled as `none`) and an optional `parts` attribute whose
elements each have an optional `text`. -/
structure GChunk where
  text : Option (List Char)
  parts : Option (List (Option (List Char)))
deriving DecidableEq

/-- Behaviour of `generate_content(..., stream=True)`: raising at the
call; returning a non-iterable response; or yielding a list of chunks
followed by either a clean end (`none`) or a raised exception. -/
inductive GemStreamOutcome where
  | raisesAtCall : List Char → GemStreamOutcome
  | notIterable : GemStreamOutcome
  | chunks : List GChunk → Option (List Char) → GemStreamOutcome
deriving DecidableEq

/-- The Gemini collaborator for one run.  `configured = false` models
`self.gemini_model is None` (missing `GEMINI_API_KEY`), which affects
both the sentiment call and the streaming call. -/
structure GeminiOracle where
  configured : Bool
  sent : GemSentOutcome
  stream : GemStreamOutcome
deriving DecidableEq

/-- Behaviour of the Tavily search collaborator: unconfigured client
(raises `ValueError`), a raised exception, or a response whose
`results` key holds the given list (or is absent). -/
inductive SearchOutcome where
  | unconfigured : SearchOutcome
  | raises : List Char → SearchOutcome
  | ok : Option (List RawResult) → SearchOutcome
deriving DecidableEq

/-- `RAGService.search_reddit`: every exception (including the
unconfigured-client `ValueError`) is caught and converted to `[]`;
otherwise `response.get('results', [])` is returned. -/
def search_reddit : SearchOutcome → List RawResult
  | .unconfigured => []
  | .raises _ => []
  | .ok r => r.getD []

/-! ## `rag_service.py`: sentiment classifier -/

/-- The `score=50, label="Neutral", confidence=0.0` default verdict. -/
def defaultVerdict00 : SentimentAnalysis :=
  ⟨.finite ⟨50, 0⟩, "Neutral".data, .finite ⟨0, 0⟩⟩

/-- The `score=50, label="Neutral", confidence=0.3` default verdict. -/
def defaultVerdict03 : SentimentAnalysis :=
  ⟨.finite ⟨50, 0⟩, "Neutral".data, .finite ⟨3, -1⟩⟩

/-- Strip a markdown code fence from the model's response, as in
`analyze_sentiment`: prefer a ```json fence, else any ``` fence; the
extracted segment is stripped. -/
def fenceStrip (t : List Char) : List Char :=
  if containsSub "```json".data t then
    pyStrip ((pySplit "```".data ((pySplit "```json".data t).getD 1 [])).getD 0 [])
  else if containsSub "```".data t then
    pyStrip ((pySplit "```".data ((pySplit "```".data t).getD 1 [])).getD 0 [])
  else t

/-- Pydantic lax coercion to `float` for a field value taken from a parsed
JSON document: numbers — including the non-finite floats parsed from
`NaN`/`Infinity`/`-Infinity`, which a `float` field accepts — pass
through, numeric strings are parsed (modelled with the JSON number
grammar), everything else fails validation. -/
def coerceFloat : JVal → Option PyFloat
  | .jnum n => some (.finite n)
  | .jnan => some .nan
  | .jinf => some .inf
  | .jninf => some .ninf
  | .jstr s =>
    (match parseNumber (pyStrip s) with
     | some (n, []) => some (.finite n)
     | _ => none)
  | _ => none

/-- Pydantic lax coercion to `str`: only strings validate. -/
def coerceStr : JVal → Option (List Char)
  | .jstr s => some s
  | _ => none

/-- `SentimentAnalysis(score=d.get('score', 50), label=d.get('label',
'Neutral'), confidence=d.get('confidence', 0.5))` including pydantic
validation; `none` models a raised `ValidationError`. -/
def validateSentiment (fs : List (List Char × JVal)) : Option SentimentAnalysis :=
  match coerceFloat (jget fs "score".data (.jnum ⟨50, 0⟩)),
        coerceStr (jget fs "label".data (.jstr "Neutral".data)),
        coerceFloat (jget fs "confidence".data (.jnum ⟨5, -1⟩)) with
  | some s, some l, some c => some ⟨s, l, c⟩
  | _, _, _ => none

/-- Processing of a non-empty model response inside `analyze_sentiment`
(lines 157-178): strip, remove a code fence, `json.loads`.  A JSON parse
error yields the confidence-0.3 default; a parsed non-dict value makes
`.get` raise `AttributeError`, and a failed pydantic validation raises,
both caught by the outer handler which yields the confidence-0.0
default. -/
def classifyResponseText (s : List Char) : SentimentAnalysis :=
  match jsonParse (fenceStrip (pyStrip s)) with
  | none => defaultVerdict03
  | some (.jobj fs) =>
    (match validateSentiment fs with
     | some v => v
     | none => defaultVerdict00)
  | some _ => defaultVerdict00

/-- `RAGService.analyze_sentiment`.  Returns the verdict together with a
flag recording whether the model collaborator was invoked.  The
unconfigured-model check precedes the empty-text check in the source;
both return the confidence-0.0 default without a model call. -/
def analyze_sentiment (g : GeminiOracle) (texts : List (List Char)) :
    SentimentAnalysis × Bool :=
  if g.configured = false then (defaultVerdict00, false)
  else if pyStrip (spaceJoin (texts.take 5)) = [] then (defaultVerdict00, false)
  else
    match g.sent with
    | .raises _ => (defaultVerdict00, true)
    | .noText => (defaultVerdict00, true)
    | .text s => (classifyResponseText s, true)

/-! ## `rag_service.py`: wire frames and report generation -/

/-- One wire frame: `"data: " + payload + "\n\n"`. -/
def dataFrame (payload : List Char) : List Char :=
  "data: ".data ++ payload ++ ['\n', '\n']

/-- The terminal frame `data: [DONE]`. -/
def doneFrame : List Char := dataFrame "[DONE]".data

/-- The fragment escaping of `generate_sentiment_report`:
`.replace('"', '\\"').replace('\n', '\\n')`. -/
def escapeFrag (s : List Char) : List Char :=
  replaceAll ['\n'] [bs, 'n'] (replaceAll [qc] [bs, qc] s)

/-- A text-fragment frame: the escaped text wrapped in double quotes. -/
def fragFrame (s : List Char) : List Char :=
  dataFrame (qc :: escapeFrag s ++ [qc])

/-- Lower-case hexadecimal digit. -/
def hexDigit (n : Nat) : Char :=
  if n < 10 then Char.ofNat (48 + n) else Char.ofNat (87 + n)

/-- JSON string-literal escaping as performed by pydantic's JSON
serializer: quote, backslash and control characters are escaped (named
escapes where JSON has them, `\u00XX` otherwise); other characters are
emitted verbatim. -/
def jsonEscapeString : List Char → List Char
  | [] => []
  | c :: cs =>
    (if c = qc then [bs, qc]
     else if c = bs then [bs, bs]
     else if c = '\n' then [bs, 'n']
     else if c = '\r' then [bs, 'r']
     else if c = '\t' then [bs, 't']
     else if c = '\x08' then [bs, 'b']
     else if c = '\x0c' then [bs, 'f']
     else if c.toNat < 32 then [bs, 'u', '0', '0', hexDigit (c.toNat / 16), hexDigit (c.toNat % 16)]
     else [c]) ++ jsonEscapeString cs

/-- Render a decimal number as a JSON number token (scientific form:
`0.<digits>e<exp>`, or `0`). -/
def renderJNum (n : JNum) : List Char :=
  if n.mant = 0 then ['0']
  else
    let ds := natDigits n.mant.natAbs
    (if n.mant < 0 then ['-'] else []) ++ '0' :: '.' :: ds ++ 'e' :: intRepr (n.exp + ds.length)

/-- `model_dump_json` rendering of a float field: a finite value as a
number token; the non-finite floats serialize as JSON `null` (pydantic's
`ser_json_inf_nan` default). -/
def renderPyFloat : PyFloat → List Char
  | .finite n => renderJNum n
  | _ => "null".data

/-- `sentiment.model_dump_json()`: the verdict as a flat JSON object with
keys `score`, `label`, `confidence`. -/
def dumpSentiment (v : SentimentAnalysis) : List Char :=
  "\x7b\"score\":".data ++ renderPyFloat v.score ++
    ",\"label\":\"".data ++ jsonEscapeString v.label ++
    "\",\"confidence\":".data ++ renderPyFloat v.confidence ++ ['\x7d']

/-- The verdict frame emitted first by `generate_sentiment_report`. -/
def verdictFrame (v : SentimentAnalysis) : List Char :=
  dataFrame (dumpSentiment v)

/-- The fallback frame emitted when the stream produced zero chunks. -/
def noRespFrame : List Char :=
  dataFrame (qc :: "No response generated. Please try again.".data ++ [qc])

/-- The frame emitted when the streaming Gemini call raises (the raw
exception text is interpolated, unescaped). -/
def gemErrFrame (msg : List Char) : List Char :=
  dataFrame (qc :: ("Error calling Gemini API: ".data ++ msg) ++ [qc])

/-- The frame emitted when the outer handler of
`generate_sentiment_report` catches an exception. -/
def reportErrFrame (msg : List Char) : List Char :=
  dataFrame (qc :: ("Error generating report: ".data ++ msg) ++ [qc])

/-- The frames yielded for one stream chunk:
`if chunk.text: ... elif chunk.parts: ...` with empty texts skipped. -/
def partFrames (ps : List (Option (List Char))) : List (List Char) :=
  ps.flatMap (fun p =>
    match p with
    | some t => if t ≠ [] then [fragFrame t] else []
    | none => [])

def chunkParts (c : GChunk) : List (List Char) :=
  match c.parts with
  | some ps => if ps ≠ [] then partFrames ps else []
  | none => []

def chunkFrames (c : GChunk) : List (List Char) :=
  match c.text with
  | some t => if t ≠ [] then [fragFrame t] else chunkParts c
  | none => chunkParts c

/-- The frames emitted after the chunk loop: the inner error handler's
frame when the loop raised, or the zero-chunk fallback frame. -/
def streamTail (cs : List GChunk) : Option (List Char) → List (List Char)
  | some m => [gemErrFrame m]
  | none => if cs.length = 0 then [noRespFrame] else []

def streamBody (g : GeminiOracle) : List (List Char) :=
  if g.configured = false then
    [reportErrFrame "Gemini model not initialized. Check GEMINI_API_KEY.".data, doneFrame]
  else
    match g.stream with
    | .raisesAtCall m => [gemErrFrame m, doneFrame]
    | .notIterable => [gemErrFrame "Gemini response is not iterable".data, doneFrame]
    | .chunks cs err => cs.flatMap chunkFrames ++ streamTail cs err ++ [doneFrame]

/-- `Source(...)` as constructed in `generate_sentiment_report`
(lines 206-212). -/
def mkSourceRag (defaultId : List Char) (r : RawResult) : Source :=
  ⟨defaultId,
   r.title.getD "No Title".data,
   r.url.getD [],
   extract_subreddit_from_url (r.url.getD []),
   some (extract_upvotes_from_content (r.content.getD [])),
   (r.content.getD []).take 1000⟩

/-- The sources built for the synthesis prompt (`search_results[:8]`). -/
def ragSources (defaultId : List Char) (results : List RawResult) : List Source :=
  (results.take 8).map (mkSourceRag defaultId)

/-- The texts handed to sentiment classification
(`search_results[:5]`, field `content` with default `''`). -/
def ragSentimentTexts (results : List RawResult) : List (List Char) :=
  (results.take 5).map (fun r => r.content.getD [])

/-- One block of the synthesis prompt's context, with its 1-based
citation index. -/
def contextPart (i : Nat) (r : RawResult) : List Char :=
  '\n' :: "Source [".data ++ natDigits (i + 1) ++ "]: ".data ++ r.title.getD "No Title".data ++
    '\n' :: "Subreddit: r/".data ++ extract_subreddit_from_url (r.url.getD []) ++
    '\n' :: "Content: ".data ++ (r.content.getD []).take 500 ++ "...".data ++ ['\n']

def contextPartsAux : Nat → List RawResult → List (List Char)
  | _, [] => []
  | i, r :: rs => contextPart i r :: contextPartsAux (i + 1) rs

/-- The context blocks of the synthesis prompt, one per used source, in
`enumerate(search_results[:8])` order. -/
def ragContextParts (results : List RawResult) : List (List Char) :=
  contextPartsAux 0 (results.take 8)

/-- `RAGService.generate_sentiment_report` as the list of frames it
yields: the verdict frame (computed from the first five results' texts)
followed by the streaming body. -/
def generate_sentiment_report (g : GeminiOracle) (results : List RawResult) :
    List (List Char) :=
  verdictFrame (analyze_sentiment g (ragSentimentTexts results)).1 :: streamBody g

/-! ## `main.py`: stream orchestrator -/

/-- A persistence call made against the conversation store during a
run. -/
inductive PersistAct where
  | message : List Char → List Char → PersistAct
  | sources : List Source → PersistAct
deriving DecidableEq

/-- The observable outcome of `generate_research_stream`: the frames sent
to the client and the persistence calls made, in order. -/
structure RunResult where
  frames : List (List Char)
  persists : List PersistAct
deriving DecidableEq

/-- The orchestrator's sentiment-frame detection (`main.py` lines
107-112): `json.loads(data)` succeeding with a dict containing both
`score` and `label` keys. -/
def sentimentDetect (data : List Char) : Bool :=
  match jsonParse data with
  | some (.jobj fs) => jHasKey fs "score".data && jHasKey fs "label".data
  | _ => false

/-- The orchestrator's quote stripping (`main.py` lines 119-120):
`data[1:-1]` when the payload starts and ends with a double quote. -/
def stripQuotes (d : List Char) : List Char :=
  if d.head? = some qc ∧ d.getLast? = some qc then (d.drop 1).dropLast else d

/-- The orchestrator's unescaping (`main.py` line 121):
`.replace('\\n', '\n').replace('\\"', '"')`. -/
def unescapeClient (t : List Char) : List Char :=
  replaceAll [bs, qc] [qc] (replaceAll [bs, 'n'] ['\n'] t)

/-- What one relayed chunk contributes to `accumulated_content`
(`main.py` lines 98-124): `data:`-prefixed frames whose stripped payload
is not `[DONE]` and not a sentiment object are unquoted, unescaped and
accumulated when the resulting text is non-empty and not `[DONE]`. -/
def accumFromFrame (chunk : List Char) : Option (List Char) :=
  if lpre "data: ".data chunk then
    let data := pyStrip (chunk.drop 6)
    if data = "[DONE]".data then none
    else if sentimentDetect data then none
    else
      let t := unescapeClient (stripQuotes data)
      if t ≠ [] ∧ t ≠ "[DONE]".data then some t else none
  else none

/-- `Source(...)` as constructed in `generate_research_stream`
(`main.py` lines 139-145). -/
def mkSourceMain (defaultId : List Char) (r : RawResult) : Source :=
  ⟨defaultId,
   r.title.getD "No Title".data,
   r.url.getD [],
   extract_subreddit_from_url (r.url.getD []),
   some (extract_upvotes_from_content (r.content.getD [])),
   (r.content.getD []).take 1000⟩

/-- The sources persisted by the orchestrator
(`search_results[:8]`, `main.py` line 138). -/
def mainSources (defaultId : List Char) (results : List RawResult) : List Source :=
  (results.take 8).map (mkSourceMain defaultId)

/-- The message persisted on the empty-search path. -/
def noResultsMsg : List Char := "No relevant discussions found on Reddit.".data

/-- The frame emitted on the empty-search path. -/
def noResultsFrame : List Char := dataFrame (qc :: noResultsMsg ++ [qc])

/-- `generate_research_stream` (`main.py` lines 72-153) applied to the
already-returned search results: on an empty list it emits one error
frame and the terminal frame and persists the error text as an assistant
message; otherwise it relays every frame of
`generate_sentiment_report`, accumulates the decoded text fragments,
persists the stripped accumulation (or the fixed fallback) as one
assistant message, and then persists the derived sources. -/
def generate_research_stream (defaultId : List Char) (g : GeminiOracle)
    (results : List RawResult) : RunResult :=
  if results = [] then
    { frames := [noResultsFrame, doneFrame],
      persists := [.message "assistant".data noResultsMsg] }
  else
    let inner := generate_sentiment_report g results
    let fullContent := pyStrip (inner.filterMap accumFromFrame).flatten
    { frames := inner,
      persists :=
        [.message "assistant".data
          (if fullContent ≠ [] then fullContent else "Report generated successfully".data),
         .sources (mainSources defaultId results)] }

/-- The whole pipeline from the search collaborator's behaviour. -/
def runPipeline (defaultId : List Char) (g : GeminiOracle) (srch : SearchOutcome) : RunResult :=
  generate_research_stream defaultId g (search_reddit srch)

/-! ## `storage_service.py`: chat title -/

/-- `StorageService.generate_chat_title`: first four whitespace-separated
words, stripped, truncated to 27 characters plus `...` when longer than
30, with `New Research` as the fallback for an empty title. -/
def generate_chat_title (query : List Char) : List Char :=
  let title := pyStrip (spaceJoin ((pySplitWs query).take 4))
  let title := if title.length > 30 then title.take 27 ++ "...".data else title
  if title = [] then "New Research".data else title

/-! ## Client contract (spec section 4.3): frame classification

These definitions restate the wire protocol from the consumer's side:
attempt a JSON parse of the payload; an object with both `score` and
`label` keys is the verdict, the literal `[DONE]` is the terminal frame,
and anything else is a text fragment whose decoded payload is obtained by
stripping surrounding quotes and unescaping `\n` and `\"`. -/

/-- The stripped payload of a wire frame, for `data:`-prefixed frames. -/
def framePayload (chunk : List Char) : Option (List Char) :=
  if lpre "data: ".data chunk then some (pyStrip (chunk.drop 6)) else none

/-- Client-side classification: is this frame the verdict frame? -/
def isVerdictFrame (chunk : List Char) : Bool :=
  match framePayload chunk with
  | some d => sentimentDetect d
  | none => false

/-- Client-side classification: is this frame the terminal frame? -/
def isDoneFrame (chunk : List Char) : Bool :=
  match framePayload chunk with
  | some d => d = "[DONE]".data
  | none => false

/-- Client-side decoding of a text-fragment payload. -/
def clientDecode (d : List Char) : List Char :=
  unescapeClient (stripQuotes d)

/-- The decoded payload of a frame that the client contract classifies as
a text fragment (not the verdict, not the terminal frame). -/
def textFragDecode (chunk : List Char) : Option (List Char) :=
  match framePayload chunk with
  | some d =>
    if d = "[DONE]".data then none
    else if sentimentDetect d then none
    else some (clientDecode d)
  | none => none

/-- All decoded text-fragment payloads of a frame list, in emission
order. -/
def decodedFragments (frames : List (List Char)) : List (List Char) :=
  frames.filterMap textFragDecode

/-- The contents of the assistant messages among a run's persistence
calls. -/
def assistantContents (acts : List PersistAct) : List (List Char) :=
  acts.filterMap (fun a =>
    match a with
    | .message role content => if role = "assistant".data then some content else none
    | .sources _ => none)

/-- The source lists among a run's persistence calls. -/
def persistedSourceLists (acts : List PersistAct) : List (List Source) :=
  acts.filterMap (fun a =>
    match a with
    | .message _ _ => none
    | .sources s => some s)

/-! ## Lemmas about the string primitives -/

theorem lpre_append_self (xs ys : List Char) : lpre xs (xs ++ ys) = true := by
  induction xs with
  | nil => rfl
  | cons a as ih => simp [lpre, ih]

theorem replaceAllF_nil (pat rep : List Char) (f : Nat) : replaceAllF pat rep f [] = [] := by
  cases f <;> rfl

theorem replaceAllF_irrel (pat rep : List Char) :
    ∀ f g l, l.length ≤ f → l.length ≤ g →
      replaceAllF pat rep f l = replaceAllF pat rep g l := by
  intro f
  induction f with
  | zero =>
    intro g l hf _
    have : l = [] := List.eq_nil_of_length_eq_zero (Nat.le_zero.mp hf)
    subst this
    rw [replaceAllF_nil, replaceAllF_nil]
  | succ f ih =>
    intro g l hf hg
    cases g with
    | zero =>
      have : l = [] := List.eq_nil_of_length_eq_zero (Nat.le_zero.mp hg)
      subst this
      rw [replaceAllF_nil, replaceAllF_nil]
    | succ g =>
      cases l with
      | nil => rw [replaceAllF_nil, replaceAllF_nil]
      | cons c cs =>
        show replaceAllF pat rep (f + 1) (c :: cs) = replaceAllF pat rep (g + 1) (c :: cs)
        simp only [replaceAllF]
        by_cases h : pat ≠ [] ∧ lpre pat (c :: cs) = true
        · rw [if_pos h, if_pos h]
          have hlen : ((c :: cs).drop pat.length).length ≤ cs.length := by
            have : 1 ≤ pat.length := by
              cases hp : pat with
              | nil => exact absurd hp h.1
              | cons x xs => simp
            simp only [List.length_drop, List.length_cons]
            omega
          simp only [List.length_cons] at hf hg
          rw [ih g ((c :: cs).drop pat.length) (by omega) (by omega)]
        · rw [if_neg h, if_neg h]
          simp only [List.length_cons] at hf hg
          rw [ih g cs (by omega) (by omega)]

theorem replaceAll_nil (pat rep : List Char) : replaceAll pat rep [] = [] := rfl

theorem replaceAll_cons (pat rep : List Char) (c : Char) (cs : List Char) :
    replaceAll pat rep (c :: cs) =
      if pat ≠ [] ∧ lpre pat (c :: cs) = true then
        rep ++ replaceAll pat rep ((c :: cs).drop pat.length)
      else c :: replaceAll pat rep cs := by
  show replaceAllF pat rep (cs.length + 1) (c :: cs) = _
  simp only [replaceAllF]
  by_cases h : pat ≠ [] ∧ lpre pat (c :: cs) = true
  · rw [if_pos h, if_pos h]
    have h1 : 1 ≤ pat.length := by
      cases hp : pat with
      | nil => exact absurd hp h.1
      | cons x xs => simp
    have hle : ((c :: cs).drop pat.length).length ≤ cs.length := by
      simp only [List.length_drop, List.length_cons]; omega
    rw [replaceAllF_irrel pat rep cs.length ((c :: cs).drop pat.length).length _ hle (Nat.le_refl _)]
    rfl
  · rw [if_neg h, if_neg h]
    rfl

theorem replaceAll_pos (pat rep : List Char) (c : Char) (cs : List Char)
    (h1 : pat ≠ []) (h2 : lpre pat (c :: cs) = true) :
    replaceAll pat rep (c :: cs) = rep ++ replaceAll pat rep ((c :: cs).drop pat.length) := by
  rw [replaceAll_cons, if_pos ⟨h1, h2⟩]

theorem replaceAll_neg (pat rep : List Char) (c : Char) (cs : List Char)
    (h2 : lpre pat (c :: cs) = false) :
    replaceAll pat rep (c :: cs) = c :: replaceAll pat rep cs := by
  rw [replaceAll_cons, if_neg]
  intro h
  rw [h.2] at h2
  exact Bool.noConfusion h2

theorem lpre_one_true (a : Char) (cs : List Char) : lpre [a] (a :: cs) = true := by
  simp [lpre]

theorem lpre_one_false (a c : Char) (cs : List Char) (h : a ≠ c) :
    lpre [a] (c :: cs) = false := by
  simp [lpre, h]

theorem lpre_two_true (a b : Char) (cs : List Char) : lpre [a, b] (a :: b :: cs) = true := by
  simp [lpre]

theorem lpre_two_false_head (a b c : Char) (cs : List Char) (h : a ≠ c) :
    lpre [a, b] (c :: cs) = false := by
  cases cs <;> simp [lpre, h]

theorem lpre_two_false_snd (a b c d : Char) (cs : List Char) (h : b ≠ d) :
    lpre [a, b] (c :: d :: cs) = false := by
  simp [lpre, h]

theorem replaceAll_single (a : Char) (rep : List Char) (c : Char) (cs : List Char) :
    replaceAll [a] rep (c :: cs) = (if c = a then rep else [c]) ++ replaceAll [a] rep cs := by
  by_cases h : c = a
  · subst h
    rw [replaceAll_pos [c] rep c cs (by simp) (lpre_one_true c cs)]
    simp
  · rw [replaceAll_neg [a] rep c cs (lpre_one_false a c cs (fun he => h he.symm))]
    simp [h]

theorem replaceAll_single_append (a : Char) (rep : List Char) :
    ∀ x y : List Char, replaceAll [a] rep (x ++ y) = replaceAll [a] rep x ++ replaceAll [a] rep y := by
  intro x y
  induction x with
  | nil => simp [replaceAll_nil]
  | cons c cs ih =>
    rw [List.cons_append, replaceAll_single, replaceAll_single, ih, List.append_assoc]

/-! ## The fragment escape/decode pair (claim C4) -/

/-- Single-pass characterization of the fragment escaping. -/
def fragEscChar (c : Char) : List Char :=
  if c = qc then [bs, qc] else if c = '\n' then [bs, 'n'] else [c]

def fragEsc : List Char → List Char
  | [] => []
  | c :: cs => fragEscChar c ++ fragEsc cs

theorem escapeFrag_eq_fragEsc : ∀ s : List Char, escapeFrag s = fragEsc s := by
  intro s
  induction s with
  | nil => rfl
  | cons c cs ih =>
    unfold escapeFrag at ih ⊢
    rw [replaceAll_single, replaceAll_single_append, ih, fragEsc]
    congr 1
    by_cases h : c = qc
    · subst h
      rw [if_pos rfl]
      rw [fragEscChar, if_pos rfl]
      decide
    · rw [if_neg h, fragEscChar, if_neg h]
      by_cases h2 : c = '\n'
      · subst h2
        rw [if_pos rfl]
        decide
      · rw [if_neg h2, replaceAll_single, if_neg h2, replaceAll_nil]
        simp

/-- Intermediate state after the first decoding pass (`\n` unescaped). -/
def halfDecChar (c : Char) : List Char :=
  if c = qc then [bs, qc] else [c]

def halfDec : List Char → List Char
  | [] => []
  | c :: cs => halfDecChar c ++ halfDec cs

theorem pass1_fragEsc (s : List Char) (h : bs ∉ s) :
    replaceAll [bs, 'n'] ['\n'] (fragEsc s) = halfDec s := by
  induction s with
  | nil => rfl
  | cons c cs ih =>
    have hbs : bs ∉ cs := fun hm => h (List.mem_cons_of_mem _ hm)
    have hc : c ≠ bs := fun he => h (he ▸ List.mem_cons_self c cs)
    rw [fragEsc, halfDec]
    by_cases h1 : c = qc
    · subst h1
      rw [fragEscChar, if_pos rfl, halfDecChar, if_pos rfl]
      show replaceAll [bs, 'n'] ['\n'] (bs :: qc :: fragEsc cs) = _
      rw [replaceAll_neg _ _ _ _ (lpre_two_false_snd bs 'n' bs qc _ (by decide))]
      rw [replaceAll_neg _ _ _ _ (lpre_two_false_head bs 'n' qc _ (by decide))]
      rw [ih hbs]
      rfl
    · by_cases h2 : c = '\n'
      · subst h2
        rw [fragEscChar, if_neg h1, if_pos rfl, halfDecChar, if_neg h1]
        show replaceAll [bs, 'n'] ['\n'] (bs :: 'n' :: fragEsc cs) = _
        rw [replaceAll_pos _ _ _ _ (by simp) (lpre_two_true bs 'n' _)]
        have hdrop : List.drop [bs, 'n'].length (bs :: 'n' :: fragEsc cs) = fragEsc cs :=
          List.drop_left [bs, 'n'] (fragEsc cs)
        rw [hdrop, ih hbs]
      · rw [fragEscChar, if_neg h1, if_neg h2, halfDecChar, if_neg h1]
        show replaceAll [bs, 'n'] ['\n'] (c :: fragEsc cs) = _
        rw [replaceAll_neg _ _ _ _ (lpre_two_false_head bs 'n' c _ (fun he => hc he.symm))]
        rw [ih hbs]
        rfl

theorem pass2_halfDec (s : List Char) (h : bs ∉ s) :
    replaceAll [bs, qc] [qc] (halfDec s) = s := by
  induction s with
  | nil => rfl
  | cons c cs ih =>
    have hbs : bs ∉ cs := fun hm => h (List.mem_cons_of_mem _ hm)
    have hc : c ≠ bs := fun he => h (he ▸ List.mem_cons_self c cs)
    rw [halfDec]
    by_cases h1 : c = qc
    · subst h1
      rw [halfDecChar, if_pos rfl]
      show replaceAll [bs, qc] [qc] (bs :: qc :: halfDec cs) = _
      rw [replaceAll_pos _ _ _ _ (by simp) (lpre_two_true bs qc _)]
      have hdrop : List.drop [bs, qc].length (bs :: qc :: halfDec cs) = halfDec cs :=
        List.drop_left [bs, qc] (halfDec cs)
      rw [hdrop, ih hbs]
      rfl
    · rw [halfDecChar, if_neg h1]
      show replaceAll [bs, qc] [qc] (c :: halfDec cs) = _
      rw [replaceAll_neg _ _ _ _ (lpre_two_false_head bs qc c _ (fun he => hc he.symm))]
      rw [ih hbs]

/-- The decode side of the client contract inverts the fragment escaping
on backslash-free fragments. -/
theorem clientDecode_fragPayload (s : List Char) (h : bs ∉ s) :
    clientDecode (qc :: escapeFrag s ++ [qc]) = s := by
  have hstrip : stripQuotes (qc :: escapeFrag s ++ [qc]) = escapeFrag s := by
    unfold stripQuotes
    rw [if_pos]
    · show ((qc :: escapeFrag s ++ [qc]).drop 1).dropLast = _
      simp [List.dropLast_concat]
    · constructor
      · rfl
      · show ((qc :: escapeFrag s) ++ [qc]).getLast? = some qc
        exact List.getLast?_concat _
  unfold clientDecode unescapeClient
  rw [hstrip, escapeFrag_eq_fragEsc, pass1_fragEsc s h, pass2_halfDec s h]

/-! ## Frame payload extraction -/

theorem dataFrame_drop6 (p : List Char) : (dataFrame p).drop 6 = p ++ ['\n', '\n'] :=
  List.drop_left "data: ".data (p ++ ['\n', '\n'])

theorem lpre_dataFrame (p : List Char) : lpre "data: ".data (dataFrame p) = true := by
  unfold dataFrame
  exact lpre_append_self _ _

/-- A list whose first and last characters are non-whitespace is left
intact by `pyStrip`. -/
theorem pyStrip_of_ends (l : List Char) (a b : Char)
    (ha : l.head? = some a) (hwa : pyWs a = false)
    (hb : l.getLast? = some b) (hwb : pyWs b = false) :
    pyStrip l = l := by
  obtain ⟨t, rfl⟩ : ∃ t, l = a :: t := by
    cases l with
    | nil => exact absurd ha (by simp)
    | cons x xs =>
      have : x = a := by simpa using ha
      exact ⟨xs, by rw [this]⟩
  unfold pyStrip
  rw [List.dropWhile_cons, hwa]
  simp only [Bool.false_eq_true, if_false]
  cases hr : (a :: t).reverse with
  | nil => exact absurd hr (by simp)
  | cons x xs =>
    have hx : x = b := by
      have h1 : (a :: t).reverse.head? = some b := by
        rw [List.head?_reverse]
        exact hb
      rw [hr] at h1
      simpa using h1
    rw [List.dropWhile_cons]
    rw [show pyWs x = false from hx ▸ hwb]
    simp only [Bool.false_eq_true, if_false]
    rw [← hr, List.reverse_reverse]

/-- Stripping the frame terminator from a payload whose first and last
characters are non-whitespace leaves the payload intact. -/
theorem pyStrip_append_nl (l : List Char) (a b : Char)
    (ha : l.head? = some a) (hwa : pyWs a = false)
    (hb : l.getLast? = some b) (hwb : pyWs b = false) :
    pyStrip (l ++ ['\n', '\n']) = l := by
  obtain ⟨t, rfl⟩ : ∃ t, l = a :: t := by
    cases l with
    | nil => exact absurd ha (by simp)
    | cons x xs =>
      have : x = a := by simpa using ha
      exact ⟨xs, by rw [this]⟩
  unfold pyStrip
  rw [List.cons_append, List.dropWhile_cons, hwa]
  simp only [Bool.false_eq_true, if_false]
  have hrev : ((a :: t) ++ ['\n', '\n']).reverse = '\n' :: '\n' :: (a :: t).reverse := by
    rw [List.reverse_append]
    rfl
  rw [show (a :: (t ++ ['\n', '\n'])) = ((a :: t) ++ ['\n', '\n']) from rfl]
  rw [hrev]
  rw [List.dropWhile_cons, List.dropWhile_cons]
  have hnl : pyWs '\n' = true := by decide
  rw [hnl]
  rw [if_pos rfl, if_pos rfl]
  cases hr : (a :: t).reverse with
  | nil => exact absurd hr (by simp)
  | cons x xs =>
    have hx : x = b := by
      have h1 : (a :: t).reverse.head? = some b := by
        rw [List.head?_reverse]
        exact hb
      rw [hr] at h1
      simpa using h1
    rw [List.dropWhile_cons]
    rw [show pyWs x = false from hx ▸ hwb]
    simp only [Bool.false_eq_true, if_false]
    rw [← hr, List.reverse_reverse]

/-- Specialized form of `pyStrip_append_nl`. -/
theorem pyStrip_sandwich (a b : Char) (mid : List Char)
    (ha : pyWs a = false) (hb : pyWs b = false) :
    pyStrip ((a :: mid ++ [b]) ++ ['\n', '\n']) = a :: mid ++ [b] := by
  exact pyStrip_append_nl (a :: mid ++ [b]) a b rfl ha (List.getLast?_concat _) hb

theorem framePayload_quoted (mid : List Char) :
    framePayload (dataFrame (qc :: mid ++ [qc])) = some (qc :: mid ++ [qc]) := by
  unfold framePayload
  rw [if_pos (lpre_dataFrame _), dataFrame_drop6]
  rw [pyStrip_sandwich qc qc mid (by decide) (by decide)]

theorem framePayload_done : framePayload doneFrame = some "[DONE]".data := by decide

/-! ## The JSON parser on wire payloads -/

theorem skipWs_cons_nonws (c : Char) (l : List Char) (h : jWs c = false) :
    skipWs (c :: l) = c :: l := by
  unfold skipWs
  rw [List.dropWhile_cons, h]
  simp

/-- A payload that starts with a double quote never parses as a JSON
object, so the orchestrator never classifies a quoted frame as the
sentiment verdict. -/
theorem parseVal_quote (f : Nat) (r : List Char) :
    parseVal (f + 1) ('\x22' :: r) = (parseJStrBody r).map (fun p => (JVal.jstr p.1, p.2)) := by
  simp [parseVal]

theorem sentimentDetect_quoted (r : List Char) : sentimentDetect (qc :: r) = false := by
  unfold sentimentDetect jsonParse
  rw [skipWs_cons_nonws qc r (by decide)]
  have hq : (qc :: r).length + 1 = r.length + 1 + 1 := by simp
  rw [hq]
  rw [show (qc :: r) = ('\x22' :: r) from rfl]
  rw [parseVal_quote (r.length + 1) r]
  cases hp : parseJStrBody r with
  | none => rfl
  | some p =>
    by_cases he : skipWs p.2 = []
    · simp [he]
    · simp [he]

/-! ## Parsing the serialized verdict -/

theorem hexVal_hexDigit : ∀ n : Nat, n < 16 → hexVal (hexDigit n) = some n := by decide

/-- The string escaping used by the verdict serializer always parses back
(the parsed content itself is irrelevant to the verdict detection).
Fuel-generalized: any slack `j` on top of the input length works, because
each parsing step consumes one unit of fuel and at least one character. -/
theorem parseJStrBodyF_escape :
    ∀ s rest : List Char, ∀ j : Nat, ∃ s',
      parseJStrBodyF ((jsonEscapeString s ++ ('\x22' :: rest)).length + j)
        (jsonEscapeString s ++ ('\x22' :: rest)) = some (s', rest) := by
  intro s
  induction s with
  | nil =>
    intro rest j
    refine ⟨[], ?_⟩
    show parseJStrBodyF (('\x22' :: rest).length + j) ('\x22' :: rest) = some ([], rest)
    rw [show ('\x22' :: rest).length + j = (rest.length + j) + 1 from by
      simp only [List.length_cons]; omega]
    simp [parseJStrBodyF]
  | cons c cs ih =>
    intro rest j
    obtain ⟨s', hs'⟩ := ih rest j
    obtain ⟨F, hF⟩ : ∃ F, (jsonEscapeString cs ++ ('\x22' :: rest)).length + j = F := ⟨_, rfl⟩
    rw [hF] at hs'
    rw [jsonEscapeString]
    by_cases h1 : c = qc
    · rw [if_pos h1]
      refine ⟨qc :: s', ?_⟩
      show parseJStrBodyF ((bs :: qc :: (jsonEscapeString cs ++ ('\x22' :: rest))).length + j)
          (bs :: qc :: (jsonEscapeString cs ++ ('\x22' :: rest))) = _
      rw [show (bs :: qc :: (jsonEscapeString cs ++ ('\x22' :: rest))).length + j =
          (F + 1) + 1 from by rw [← hF]; simp only [List.length_cons]; omega]
      simp [parseJStrBodyF, parseJEscF, escChar, hs', qc, bs]
    · rw [if_neg h1]
      by_cases h2 : c = bs
      · rw [if_pos h2]
        refine ⟨bs :: s', ?_⟩
        show parseJStrBodyF ((bs :: bs :: (jsonEscapeString cs ++ ('\x22' :: rest))).length + j)
            (bs :: bs :: (jsonEscapeString cs ++ ('\x22' :: rest))) = _
        rw [show (bs :: bs :: (jsonEscapeString cs ++ ('\x22' :: rest))).length + j =
            (F + 1) + 1 from by rw [← hF]; simp only [List.length_cons]; omega]
        simp [parseJStrBodyF, parseJEscF, escChar, hs', bs]
      · rw [if_neg h2]
        by_cases h3 : c = '\n'
        · rw [if_pos h3]
          refine ⟨'\n' :: s', ?_⟩
          show parseJStrBodyF ((bs :: 'n' :: (jsonEscapeString cs ++ ('\x22' :: rest))).length + j)
              (bs :: 'n' :: (jsonEscapeString cs ++ ('\x22' :: rest))) = _
          rw [show (bs :: 'n' :: (jsonEscapeString cs ++ ('\x22' :: rest))).length + j =
              (F + 1) + 1 from by rw [← hF]; simp only [List.length_cons]; omega]
          simp [parseJStrBodyF, parseJEscF, escChar, hs', bs]
        · rw [if_neg h3]
          by_cases h4 : c = '\r'
          · rw [if_pos h4]
            refine ⟨'\r' :: s', ?_⟩
            show parseJStrBodyF ((bs :: 'r' :: (jsonEscapeString cs ++ ('\x22' :: rest))).length + j)
                (bs :: 'r' :: (jsonEscapeString cs ++ ('\x22' :: rest))) = _
            rw [show (bs :: 'r' :: (jsonEscapeString cs ++ ('\x22' :: rest))).length + j =
                (F + 1) + 1 from by rw [← hF]; simp only [List.length_cons]; omega]
            simp [parseJStrBodyF, parseJEscF, escChar, hs', bs]
          · rw [if_neg h4]
            by_cases h5 : c = '\t'
            · rw [if_pos h5]
              refine ⟨'\t' :: s', ?_⟩
              show parseJStrBodyF ((bs :: 't' :: (jsonEscapeString cs ++ ('\x22' :: rest))).length + j)
                  (bs :: 't' :: (jsonEscapeString cs ++ ('\x22' :: rest))) = _
              rw [show (bs :: 't' :: (jsonEscapeString cs ++ ('\x22' :: rest))).length + j =
                  (F + 1) + 1 from by rw [← hF]; simp only [List.length_cons]; omega]
              simp [parseJStrBodyF, parseJEscF, escChar, hs', bs]
            · rw [if_neg h5]
              by_cases h6 : c = '\x08'
              · rw [if_pos h6]
                refine ⟨'\x08' :: s', ?_⟩
                show parseJStrBodyF ((bs :: 'b' :: (jsonEscapeString cs ++ ('\x22' :: rest))).length + j)
                    (bs :: 'b' :: (jsonEscapeString cs ++ ('\x22' :: rest))) = _
                rw [show (bs :: 'b' :: (jsonEscapeString cs ++ ('\x22' :: rest))).length + j =
                    (F + 1) + 1 from by rw [← hF]; simp only [List.length_cons]; omega]
                simp [parseJStrBodyF, parseJEscF, escChar, hs', bs]
              · rw [if_neg h6]
                by_cases h7 : c = '\x0c'
                · rw [if_pos h7]
                  refine ⟨'\x0c' :: s', ?_⟩
                  show parseJStrBodyF ((bs :: 'f' :: (jsonEscapeString cs ++ ('\x22' :: rest))).length + j)
                      (bs :: 'f' :: (jsonEscapeString cs ++ ('\x22' :: rest))) = _
                  rw [show (bs :: 'f' :: (jsonEscapeString cs ++ ('\x22' :: rest))).length + j =
                      (F + 1) + 1 from by rw [← hF]; simp only [List.length_cons]; omega]
                  simp [parseJStrBodyF, parseJEscF, escChar, hs', bs]
                · rw [if_neg h7]
                  by_cases h8 : c.toNat < 32
                  · rw [if_pos h8]
                    obtain ⟨s2, hs2⟩ := ih rest (j + 4)
                    obtain ⟨F4, hF4⟩ :
                        ∃ F4, (jsonEscapeString cs ++ ('\x22' :: rest)).length + (j + 4) = F4 :=
                      ⟨_, rfl⟩
                    rw [hF4] at hs2
                    refine ⟨Char.ofNat (((0 * 16 + 0) * 16 + c.toNat / 16) * 16 + c.toNat % 16) :: s2, ?_⟩
                    show parseJStrBodyF
                        ((bs :: 'u' :: '0' :: '0' :: hexDigit (c.toNat / 16) :: hexDigit (c.toNat % 16) ::
                          (jsonEscapeString cs ++ ('\x22' :: rest))).length + j)
                        (bs :: 'u' :: '0' :: '0' :: hexDigit (c.toNat / 16) :: hexDigit (c.toNat % 16) ::
                          (jsonEscapeString cs ++ ('\x22' :: rest))) = _
                    rw [show (bs :: 'u' :: '0' :: '0' :: hexDigit (c.toNat / 16) ::
                          hexDigit (c.toNat % 16) ::
                          (jsonEscapeString cs ++ ('\x22' :: rest))).length + j =
                        (F4 + 1) + 1 from by rw [← hF4]; simp only [List.length_cons]; omega]
                    have hv0 : hexVal '0' = some 0 := by decide
                    have hvh : hexVal (hexDigit (c.toNat / 16)) = some (c.toNat / 16) :=
                      hexVal_hexDigit _ (by omega)
                    have hvl : hexVal (hexDigit (c.toNat % 16)) = some (c.toNat % 16) :=
                      hexVal_hexDigit _ (by omega)
                    simp [parseJStrBodyF, parseJEscF, hv0, hvh, hvl, bs]
                    rw [if_neg (by omega)]
                    simp [hs2]
                  · rw [if_neg h8]
                    refine ⟨c :: s', ?_⟩
                    show parseJStrBodyF ((c :: (jsonEscapeString cs ++ ('\x22' :: rest))).length + j)
                        (c :: (jsonEscapeString cs ++ ('\x22' :: rest))) = _
                    rw [show (c :: (jsonEscapeString cs ++ ('\x22' :: rest))).length + j =
                        F + 1 from by rw [← hF]; simp only [List.length_cons]; omega]
                    have hq : ¬(c = '\x22') := h1
                    have hb : ¬(c = '\\') := h2
                    simp [parseJStrBodyF, hq, hb, h8, hs']

/-- The string escaping used by the verdict serializer always parses back. -/
theorem parseJStrBody_escape :
    ∀ s rest : List Char, ∃ s', parseJStrBody (jsonEscapeString s ++ ('\x22' :: rest)) = some (s', rest) := by
  intro s rest
  obtain ⟨s', h⟩ := parseJStrBodyF_escape s rest 0
  rw [Nat.add_zero] at h
  exact ⟨s', h⟩

/-! ## The rendered verdict numbers parse back -/

theorem takeWhile_app_all (p : Char → Bool) (xs ys : List Char) (h : ∀ x ∈ xs, p x = true) :
    (xs ++ ys).takeWhile p = xs ++ ys.takeWhile p ∧ (xs ++ ys).dropWhile p = ys.dropWhile p := by
  induction xs with
  | nil => simp
  | cons c cs ih =>
    have hc : p c = true := h c (List.mem_cons_self c cs)
    have ihh := ih (fun x hx => h x (List.mem_cons_of_mem _ hx))
    rw [List.cons_append]
    rw [List.takeWhile_cons, List.dropWhile_cons, hc]
    simp only [if_true, ihh.1, ihh.2]
    simp

theorem digitChar_isDigit : ∀ k : Nat, k < 10 → (Char.ofNat (48 + k)).isDigit = true := by decide

theorem natDigitsAux_digits : ∀ f n : Nat, ∀ c ∈ natDigitsAux f n, c.isDigit = true := by
  intro f
  induction f with
  | zero => intro n c hc; exact absurd hc (by simp [natDigitsAux])
  | succ f ih =>
    intro n c hc
    by_cases hn : n = 0
    · rw [natDigitsAux, if_pos hn] at hc
      exact absurd hc (by simp)
    · rw [natDigitsAux, if_neg hn] at hc
      rcases List.mem_append.mp hc with h | h
      · exact ih (n / 10) c h
      · have : c = Char.ofNat (48 + n % 10) := by simpa using h
        rw [this]
        exact digitChar_isDigit (n % 10) (Nat.mod_lt _ (by omega))

theorem natDigits_digits (n : Nat) : ∀ c ∈ natDigits n, c.isDigit = true := by
  intro c hc
  unfold natDigits at hc
  by_cases hn : n = 0
  · rw [if_pos hn] at hc
    have : c = '0' := by simpa using hc
    rw [this]; decide
  · rw [if_neg hn] at hc
    exact natDigitsAux_digits n n c hc

theorem natDigits_ne_nil (n : Nat) : natDigits n ≠ [] := by
  unfold natDigits
  by_cases hn : n = 0
  · rw [if_pos hn]; simp
  · rw [if_neg hn]
    obtain ⟨m, rfl⟩ : ∃ m, n = m + 1 := ⟨n - 1, by omega⟩
    rw [natDigitsAux, if_neg hn]
    simp

theorem isDigit_not_special (c : Char) (h : c.isDigit = true) :
    c ≠ '.' ∧ c ≠ 'e' ∧ c ≠ 'E' ∧ c ≠ '+' ∧ c ≠ '-' := by
  refine ⟨?_, ?_, ?_, ?_, ?_⟩ <;> (rintro rfl; exact absurd h (by decide))

/-- No JSON number token can continue into `rest`: its head is not a
digit, not a dot, not an exponent marker. -/
def numStop (rest : List Char) : Prop :=
  ∀ c r', rest = c :: r' → (c.isDigit = false ∧ c ≠ '.' ∧ c ≠ 'e' ∧ c ≠ 'E')

theorem takeWhile_stop (ys : List Char) (h : ∀ c r', ys = c :: r' → c.isDigit = false) :
    ys.takeWhile Char.isDigit = [] ∧ ys.dropWhile Char.isDigit = ys := by
  cases ys with
  | nil => simp
  | cons c r =>
    have := h c r rfl
    rw [List.takeWhile_cons, List.dropWhile_cons, this]
    simp

theorem digits_chain (ds ys : List Char) (hds : ∀ c ∈ ds, c.isDigit = true)
    (h : ∀ c r', ys = c :: r' → c.isDigit = false) :
    (ds ++ ys).takeWhile Char.isDigit = ds ∧ (ds ++ ys).dropWhile Char.isDigit = ys := by
  have h1 := takeWhile_app_all Char.isDigit ds ys hds
  have h2 := takeWhile_stop ys h
  exact ⟨by rw [h1.1, h2.1, List.append_nil], by rw [h1.2, h2.2]⟩

theorem parseFracPart_stop (rest : List Char) (h : numStop rest) :
    parseFracPart rest = ([], rest) := by
  cases rest with
  | nil => rfl
  | cons c r =>
    simp only [parseFracPart]
    rw [if_neg (h c r rfl).2.1]

theorem parseExpPart_stop (rest : List Char) (h : numStop rest) :
    parseExpPart rest = (0, rest) := by
  cases rest with
  | nil => rfl
  | cons c r =>
    simp only [parseExpPart]
    rw [if_neg]
    push_neg
    exact ⟨(h c r rfl).2.2.1, (h c r rfl).2.2.2⟩

/-- The exponent tail `e<int>` followed by a non-numeric `rest` parses as
an exponent part ending exactly at `rest`. -/
theorem parseExpPart_render (E : Int) (rest : List Char) (h : numStop rest) :
    ∃ v : Int, parseExpPart ('e' :: (intRepr E ++ rest)) = (v, rest) := by
  have hch := digits_chain (natDigits E.natAbs) rest (natDigits_digits _)
    (fun c r' he => (h c r' he).1)
  have hne : ¬((natDigits E.natAbs ++ rest).takeWhile Char.isDigit = []) := by
    rw [hch.1]; exact natDigits_ne_nil _
  unfold intRepr
  by_cases hE : E < 0
  · rw [if_pos hE, List.cons_append]
    refine ⟨-1 * (digitsToNat (natDigits E.natAbs) : Int), ?_⟩
    simp only [parseExpPart]
    rw [if_pos (Or.inl trivial : (True ∨ 'e' = 'E'))]
    simp only [parseExpSign]
    simp [hch.1, hch.2, hne]
    exact fun hnil => absurd hnil (natDigits_ne_nil _)
  · rw [if_neg hE]
    obtain ⟨d, ds', hds⟩ : ∃ d ds', natDigits E.natAbs = d :: ds' := by
      cases hnd : natDigits E.natAbs with
      | nil => exact absurd hnd (natDigits_ne_nil _)
      | cons d ds' => exact ⟨d, ds', rfl⟩
    have hd : d.isDigit = true :=
      natDigits_digits E.natAbs d (by rw [hds]; exact List.mem_cons_self _ _)
    have hsp := isDigit_not_special d hd
    refine ⟨1 * (digitsToNat (natDigits E.natAbs) : Int), ?_⟩
    rw [hds] at hch hne ⊢
    rw [List.cons_append]
    simp only [parseExpPart]
    rw [if_pos (Or.inl trivial : (True ∨ 'e' = 'E'))]
    simp only [parseExpSign]
    rw [show d :: (ds' ++ rest) = (d :: ds') ++ rest from rfl]
    simp [hsp.2.2.2.1, hsp.2.2.2.2, hch.1, hch.2, hne, hds]
    rw [if_neg (by simp [hd])]
    rw [show d :: (ds' ++ rest) = (d :: ds') ++ rest from rfl]
    rw [hch.1, hch.2]

theorem parseFracExp_stop (ds : List Char) (neg : Bool) (rest : List Char) (h : numStop rest) :
    parseFracExp ds neg rest =
      (⟨(if neg then -1 else 1) * (digitsToNat ds : Int), 0⟩, rest) := by
  simp [parseFracExp, parseFracPart_stop rest h, parseExpPart_stop rest h]

/-- A rendered verdict number followed by a non-numeric `rest` parses as
exactly one number token ending at `rest`. -/
theorem parseNumber_render (n : JNum) (rest : List Char) (h : numStop rest) :
    ∃ n', parseNumber (renderJNum n ++ rest) = some (n', rest) := by
  unfold renderJNum
  by_cases hm : n.mant = 0
  · rw [if_pos hm]
    refine ⟨⟨(if false then -1 else 1) * (digitsToNat ['0'] : Int), 0⟩, ?_⟩
    show parseNumber ('0' :: rest) = _
    simp only [parseNumber]
    rw [if_neg (by decide)]
    simp only [parseNumBody]
    rw [if_pos trivial, parseFracExp_stop ['0'] false rest h]
  · rw [if_neg hm]
    obtain ⟨v, hv⟩ := parseExpPart_render (n.exp + (natDigits n.mant.natAbs).length) rest h
    have hbody : ∀ neg : Bool,
        parseNumBody neg ('0' :: '.' :: (natDigits n.mant.natAbs ++
          ('e' :: (intRepr (n.exp + (natDigits n.mant.natAbs).length) ++ rest)))) =
          some (⟨(if neg then -1 else 1) * (digitsToNat (['0'] ++ natDigits n.mant.natAbs) : Int),
                 v - ((natDigits n.mant.natAbs).length : Int)⟩, rest) := by
      have hch := digits_chain (natDigits n.mant.natAbs)
        ('e' :: (intRepr (n.exp + (natDigits n.mant.natAbs).length) ++ rest))
        (natDigits_digits _) (fun c r' he => by cases he; decide)
      intro neg
      simp only [parseNumBody]
      rw [if_pos trivial]
      simp only [parseFracExp, parseFracPart]
      rw [if_pos trivial]
      rw [if_neg (show ¬(List.takeWhile Char.isDigit (natDigits n.mant.natAbs ++
            'e' :: (intRepr (n.exp + ((natDigits n.mant.natAbs).length : Int)) ++ rest)) = []) from by
        rw [hch.1]; exact natDigits_ne_nil _)]
      rw [hch.1, hch.2, hv]
    by_cases hneg : n.mant < 0
    · rw [if_pos hneg]
      refine ⟨⟨(if true then -1 else 1) * (digitsToNat (['0'] ++ natDigits n.mant.natAbs) : Int),
        v - ((natDigits n.mant.natAbs).length : Int)⟩, ?_⟩
      have hshape : ((['-'] ++ '0' :: '.' :: natDigits n.mant.natAbs ++
            'e' :: intRepr (n.exp + ((natDigits n.mant.natAbs).length : Int))) ++ rest) =
          '-' :: '0' :: '.' :: (natDigits n.mant.natAbs ++
            ('e' :: (intRepr (n.exp + ((natDigits n.mant.natAbs).length : Int)) ++ rest))) := by
        simp
      rw [hshape]
      simp only [parseNumber]
      rw [if_pos trivial]
      exact hbody true
    · rw [if_neg hneg]
      refine ⟨⟨(if false then -1 else 1) * (digitsToNat (['0'] ++ natDigits n.mant.natAbs) : Int),
        v - ((natDigits n.mant.natAbs).length : Int)⟩, ?_⟩
      have hshape : (([] ++ '0' :: '.' :: natDigits n.mant.natAbs ++
            'e' :: intRepr (n.exp + ((natDigits n.mant.natAbs).length : Int))) ++ rest) =
          '0' :: '.' :: (natDigits n.mant.natAbs ++
            ('e' :: (intRepr (n.exp + ((natDigits n.mant.natAbs).length : Int)) ++ rest))) := by
        simp
      rw [hshape]
      simp only [parseNumber]
      rw [if_neg (by decide)]
      exact hbody false

/-! ## Parsing the serialized verdict object -/

theorem parseJStrBodyF_plain :
    ∀ ks : List Char, ∀ rest : List Char, ∀ j : Nat,
    (∀ k ∈ ks, 32 ≤ k.toNat ∧ k ≠ '\x22' ∧ k ≠ '\\') →
    parseJStrBodyF ((ks ++ '\x22' :: rest).length + j) (ks ++ '\x22' :: rest) =
      some (ks, rest) := by
  intro ks
  induction ks with
  | nil =>
    intro rest j h
    show parseJStrBodyF (('\x22' :: rest).length + j) ('\x22' :: rest) = _
    rw [show ('\x22' :: rest).length + j = (rest.length + j) + 1 from by
      simp only [List.length_cons]; omega]
    simp [parseJStrBodyF]
  | cons k ks ih =>
    intro rest j h
    obtain ⟨h32, hq, hb⟩ := h k (List.mem_cons_self k ks)
    have hrec := ih rest j (fun x hx => h x (List.mem_cons_of_mem _ hx))
    obtain ⟨F, hF⟩ : ∃ F, (ks ++ '\x22' :: rest).length + j = F := ⟨_, rfl⟩
    rw [hF] at hrec
    rw [List.cons_append]
    rw [show ((k :: (ks ++ '\x22' :: rest)).length + j) = F + 1 from by
      rw [← hF]; simp only [List.length_cons]; omega]
    have hlt : ¬(k.toNat < 32) := by omega
    simp [parseJStrBodyF, hq, hb, hlt, hrec]

theorem parseJStrBody_plain (ks rest : List Char)
    (h : ∀ k ∈ ks, 32 ≤ k.toNat ∧ k ≠ '\x22' ∧ k ≠ '\\') :
    parseJStrBody (ks ++ '\x22' :: rest) = some (ks, rest) := by
  have h0 := parseJStrBodyF_plain ks rest 0 h
  rw [Nat.add_zero] at h0
  exact h0

theorem renderJNum_head (n : JNum) :
    ∃ t, renderJNum n = '0' :: t ∨ renderJNum n = '-' :: t := by
  unfold renderJNum
  by_cases hm : n.mant = 0
  · rw [if_pos hm]; exact ⟨[], Or.inl rfl⟩
  · rw [if_neg hm]
    by_cases hneg : n.mant < 0
    · rw [if_pos hneg]; exact ⟨_, Or.inr rfl⟩
    · rw [if_neg hneg]; exact ⟨_, Or.inl rfl⟩

theorem skipWs_renderJNum (n : JNum) (x : List Char) :
    skipWs (renderJNum n ++ x) = renderJNum n ++ x := by
  obtain ⟨t, ht | ht⟩ := renderJNum_head n <;>
    (rw [ht, List.cons_append]; exact skipWs_cons_nonws _ _ (by decide))

theorem parseVal_number (f : Nat) (n : JNum) (rest : List Char) (h : numStop rest) :
    ∃ n', parseVal (f + 1) (renderJNum n ++ rest) = some (.jnum n', rest) := by
  obtain ⟨n', hn'⟩ := parseNumber_render n rest h
  refine ⟨n', ?_⟩
  obtain ⟨t, ht | ht⟩ := renderJNum_head n <;>
  · rw [ht] at hn' ⊢
    rw [List.cons_append] at hn' ⊢
    simp [parseVal, hn']

theorem parseVal_null (f : Nat) (rest : List Char) :
    parseVal (f + 1) ("null".data ++ rest) = some (.jnull, rest) := by
  show parseVal (f + 1) ('n' :: ('u' :: 'l' :: 'l' :: rest)) = _
  simp [parseVal, lpre]

theorem skipWs_renderPyFloat (p : PyFloat) (x : List Char) :
    skipWs (renderPyFloat p ++ x) = renderPyFloat p ++ x := by
  cases p with
  | finite n => exact skipWs_renderJNum n x
  | nan => exact skipWs_cons_nonws 'n' _ (by decide)
  | inf => exact skipWs_cons_nonws 'n' _ (by decide)
  | ninf => exact skipWs_cons_nonws 'n' _ (by decide)

/-- A rendered float field followed by a non-numeric `rest` parses as one
JSON value ending exactly at `rest` (a number token, or `null` for the
non-finite floats). -/
theorem parseVal_renderPyFloat (f : Nat) (p : PyFloat) (rest : List Char) (h : numStop rest) :
    ∃ v, parseVal (f + 1) (renderPyFloat p ++ rest) = some (v, rest) := by
  cases p with
  | finite n =>
    obtain ⟨n', hn'⟩ := parseVal_number f n rest h
    exact ⟨.jnum n', hn'⟩
  | nan => exact ⟨.jnull, parseVal_null f rest⟩
  | inf => exact ⟨.jnull, parseVal_null f rest⟩
  | ninf => exact ⟨.jnull, parseVal_null f rest⟩

/-- One non-final member of a JSON object. -/
theorem parseMembers_cons (f : Nat) (ks valstr restm : List Char) (val : JVal)
    (fields : List (List Char × JVal)) (rem : List Char)
    (hks : ∀ k ∈ ks, 32 ≤ k.toNat ∧ k ≠ '\x22' ∧ k ≠ '\\')
    (hv0 : skipWs valstr = valstr)
    (hval : parseVal f valstr = some (val, ',' :: restm))
    (hr : skipWs restm = restm)
    (hmem : parseMembers f restm = some (fields, rem)) :
    parseMembers (f + 1) ('\x22' :: (ks ++ '\x22' :: ':' :: valstr)) =
      some ((ks, val) :: fields, rem) := by
  simp only [parseMembers]
  rw [if_pos trivial]
  rw [parseJStrBody_plain ks (':' :: valstr) hks]
  simp only []
  rw [skipWs_cons_nonws ':' valstr (by decide)]
  simp only []
  rw [if_pos trivial]
  rw [hv0, hval]
  simp only []
  rw [skipWs_cons_nonws ',' restm (by decide)]
  simp only []
  rw [if_pos trivial]
  rw [hr, hmem]
  rfl

/-- The final member of a JSON object. -/
theorem parseMembers_last (f : Nat) (ks valstr rem : List Char) (val : JVal)
    (hks : ∀ k ∈ ks, 32 ≤ k.toNat ∧ k ≠ '\x22' ∧ k ≠ '\\')
    (hv0 : skipWs valstr = valstr)
    (hval : parseVal f valstr = some (val, '\x7d' :: rem)) :
    parseMembers (f + 1) ('\x22' :: (ks ++ '\x22' :: ':' :: valstr)) =
      some ([(ks, val)], rem) := by
  simp only [parseMembers]
  rw [if_pos trivial]
  rw [parseJStrBody_plain ks (':' :: valstr) hks]
  simp only []
  rw [skipWs_cons_nonws ':' valstr (by decide)]
  simp only []
  rw [if_pos trivial]
  rw [hv0, hval]
  simp only []
  rw [skipWs_cons_nonws '\x7d' rem (by decide)]
  simp only []
  rw [if_neg (by decide), if_pos trivial]

/-- The members of the serialized verdict, outermost first. -/
def dumpM3 (v : SentimentAnalysis) : List Char :=
  '\x22' :: ("confidence".data ++ '\x22' :: ':' :: (renderPyFloat v.confidence ++ ['\x7d']))

def dumpM2 (v : SentimentAnalysis) : List Char :=
  '\x22' :: ("label".data ++ '\x22' :: ':' ::
    ('\x22' :: (jsonEscapeString v.label ++ '\x22' :: ',' :: dumpM3 v)))

def dumpM1 (v : SentimentAnalysis) : List Char :=
  '\x22' :: ("score".data ++ '\x22' :: ':' :: (renderPyFloat v.score ++ ',' :: dumpM2 v))

theorem dumpSentiment_eq (v : SentimentAnalysis) : dumpSentiment v = '\x7b' :: dumpM1 v := by
  have e1 : "\x7b\"score\":".data = ['\x7b', '\x22', 's', 'c', 'o', 'r', 'e', '\x22', ':'] := rfl
  have e2 : ",\"label\":\"".data = [',', '\x22', 'l', 'a', 'b', 'e', 'l', '\x22', ':', '\x22'] := rfl
  have e3 : "\",\"confidence\":".data =
      ['\x22', ',', '\x22', 'c', 'o', 'n', 'f', 'i', 'd', 'e', 'n', 'c', 'e', '\x22', ':'] := rfl
  have e4 : "score".data = ['s', 'c', 'o', 'r', 'e'] := rfl
  have e5 : "label".data = ['l', 'a', 'b', 'e', 'l'] := rfl
  have e6 : "confidence".data = ['c', 'o', 'n', 'f', 'i', 'd', 'e', 'n', 'c', 'e'] := rfl
  simp only [dumpSentiment, dumpM1, dumpM2, dumpM3, e1, e2, e3, e4, e5, e6,
    List.cons_append, List.append_assoc, List.nil_append]

theorem parseMembers_dump (v : SentimentAnalysis) (g : Nat) :
    ∃ a b c, parseMembers (g + 4) (dumpM1 v) =
      some ([("score".data, a), ("label".data, .jstr b),
             ("confidence".data, c)], []) := by
  obtain ⟨cJ, hc⟩ := parseVal_renderPyFloat g v.confidence ['\x7d']
    (fun ch r' he => by cases he; exact ⟨by decide, by decide, by decide, by decide⟩)
  have hm3 : parseMembers (g + 2) (dumpM3 v) = some ([("confidence".data, cJ)], []) := by
    simp only [dumpM3]
    exact parseMembers_last (g + 1) "confidence".data _ [] _ (by decide)
      (skipWs_renderPyFloat _ _) hc
  obtain ⟨b, hb⟩ := parseJStrBody_escape v.label (',' :: dumpM3 v)
  have hv2 : parseVal (g + 2) ('\x22' :: (jsonEscapeString v.label ++ '\x22' :: ',' :: dumpM3 v)) =
      some (.jstr b, ',' :: dumpM3 v) := by
    rw [show (g + 2 : Nat) = (g + 1) + 1 from rfl]
    rw [parseVal_quote (g + 1) _]
    rw [show (jsonEscapeString v.label ++ '\x22' :: ',' :: dumpM3 v) =
         (jsonEscapeString v.label ++ ('\x22' :: (',' :: dumpM3 v))) from rfl]
    rw [hb]
    rfl
  have hm2 : parseMembers (g + 3) (dumpM2 v) =
      some ([("label".data, .jstr b), ("confidence".data, cJ)], []) := by
    simp only [dumpM2]
    rw [show (g + 3 : Nat) = (g + 2) + 1 from rfl]
    refine parseMembers_cons (g + 2) "label".data _ (dumpM3 v) (.jstr b) _ [] (by decide)
      (skipWs_cons_nonws _ _ (by decide)) ?_ ?_ ?_
    · exact hv2
    · simp only [dumpM3]
      exact skipWs_cons_nonws _ _ (by decide)
    · exact hm3
  obtain ⟨a, ha⟩ := parseVal_renderPyFloat (g + 2) v.score (',' :: dumpM2 v)
    (fun ch r' he => by cases he; exact ⟨by decide, by decide, by decide, by decide⟩)
  refine ⟨a, b, cJ, ?_⟩
  simp only [dumpM1]
  rw [show (g + 4 : Nat) = (g + 3) + 1 from rfl]
  refine parseMembers_cons (g + 3) "score".data _ (dumpM2 v) a _ [] (by decide)
    (skipWs_renderPyFloat _ _) ha ?_ hm2
  simp only [dumpM2]
  exact skipWs_cons_nonws _ _ (by decide)

/-- The orchestrator's sentiment detection accepts every serialized
verdict. -/
theorem sentimentDetect_dump (v : SentimentAnalysis) :
    sentimentDetect (dumpSentiment v) = true := by
  have hlen : 4 ≤ (dumpM1 v).length := by
    simp only [dumpM1]
    simp
  obtain ⟨g, hg⟩ : ∃ g, (dumpM1 v).length = g + 4 := ⟨(dumpM1 v).length - 4, by omega⟩
  unfold sentimentDetect jsonParse
  rw [dumpSentiment_eq]
  rw [skipWs_cons_nonws _ _ (by decide)]
  have hfuel : ('\x7b' :: dumpM1 v).length + 1 = (g + 5) + 1 := by
    simp [hg]
  rw [hfuel]
  simp only [parseVal]
  rw [if_neg (by decide), if_pos trivial]
  have hskip1 : skipWs (dumpM1 v) = dumpM1 v := by
    simp only [dumpM1]
    exact skipWs_cons_nonws _ _ (by decide)
  rw [hskip1]
  obtain ⟨a, b, c, hm⟩ := parseMembers_dump v (g + 1)
  simp only [dumpM1] at hm ⊢
  rw [if_neg (by decide)]
  rw [show (g + 1 + 4 : Nat) = g + 5 from by omega] at hm
  rw [hm]
  simp [skipWs, jHasKey]

/-! ## Frame classification -/

theorem isVerdictFrame_quoted (mid : List Char) :
    isVerdictFrame (dataFrame (qc :: mid ++ [qc])) = false := by
  unfold isVerdictFrame
  rw [framePayload_quoted]
  exact sentimentDetect_quoted _

theorem fragFrame_quoted_shape (s : List Char) :
    fragFrame s = dataFrame (qc :: escapeFrag s ++ [qc]) := rfl

theorem isVerdictFrame_fragFrame (s : List Char) : isVerdictFrame (fragFrame s) = false :=
  isVerdictFrame_quoted (escapeFrag s)

theorem isVerdictFrame_done : isVerdictFrame doneFrame = false := by decide

theorem dumpSentiment_head (v : SentimentAnalysis) :
    (dumpSentiment v).head? = some '\x7b' := by
  rw [dumpSentiment_eq]
  rfl

theorem dumpSentiment_last (v : SentimentAnalysis) :
    (dumpSentiment v).getLast? = some '\x7d' := by
  have h : dumpSentiment v =
      ("\x7b\"score\":".data ++ renderPyFloat v.score ++ ",\"label\":\"".data ++
        jsonEscapeString v.label ++ "\",\"confidence\":".data ++ renderPyFloat v.confidence) ++
      ['\x7d'] := by
    simp [dumpSentiment, List.append_assoc]
  rw [h]
  exact List.getLast?_concat _

/-- Extraction of the payload of a `data:` frame whose payload starts and
ends with non-whitespace characters. -/
theorem framePayload_dataFrame (p : List Char) (a b : Char)
    (ha : p.head? = some a) (hwa : pyWs a = false)
    (hb : p.getLast? = some b) (hwb : pyWs b = false) :
    framePayload (dataFrame p) = some p := by
  unfold framePayload
  rw [if_pos (lpre_dataFrame _), dataFrame_drop6]
  rw [pyStrip_append_nl p a b ha hwa hb hwb]

theorem framePayload_verdict (v : SentimentAnalysis) :
    framePayload (verdictFrame v) = some (dumpSentiment v) :=
  framePayload_dataFrame _ '\x7b' '\x7d' (dumpSentiment_head v) (by decide)
    (dumpSentiment_last v) (by decide)

theorem isVerdictFrame_verdict (v : SentimentAnalysis) :
    isVerdictFrame (verdictFrame v) = true := by
  unfold isVerdictFrame
  rw [framePayload_verdict]
  exact sentimentDetect_dump v

theorem gemErrFrame_shape (m : List Char) :
    gemErrFrame m = dataFrame (qc :: ("Error calling Gemini API: ".data ++ m) ++ [qc]) := rfl

theorem reportErrFrame_shape (m : List Char) :
    reportErrFrame m = dataFrame (qc :: ("Error generating report: ".data ++ m) ++ [qc]) := rfl

theorem noRespFrame_shape :
    noRespFrame = dataFrame (qc :: "No response generated. Please try again.".data ++ [qc]) := rfl

/-- Every frame of a chunk is a text-fragment frame. -/
theorem chunkFrames_shape (c : GChunk) (fr : List Char) (h : fr ∈ chunkFrames c) :
    ∃ t, fr = fragFrame t := by
  have hparts : ∀ fr, fr ∈ chunkParts c → ∃ t, fr = fragFrame t := by
    intro fr hf
    unfold chunkParts at hf
    split at hf
    · split at hf
      · unfold partFrames at hf
        obtain ⟨p, _, hmem⟩ := List.mem_flatMap.mp hf
        split at hmem
        · split at hmem
          · exact ⟨_, by simpa using hmem⟩
          · exact absurd hmem (by simp)
        · exact absurd hmem (by simp)
      · exact absurd hf (by simp)
    · exact absurd hf (by simp)
  unfold chunkFrames at h
  split at h
  · split at h
    · exact ⟨_, by simpa using h⟩
    · exact hparts fr h
  · exact hparts fr h

/-- No frame of the stream body is classified as the verdict. -/
theorem streamTail_shape (cs : List GChunk) (err : Option (List Char)) (fr : List Char)
    (h : fr ∈ streamTail cs err) : (∃ m, fr = gemErrFrame m) ∨ fr = noRespFrame := by
  unfold streamTail at h
  split at h
  · exact Or.inl ⟨_, by simpa using h⟩
  · split at h
    · exact Or.inr (by simpa using h)
    · exact absurd h (by simp)

theorem streamBody_no_verdict (g : GeminiOracle) :
    ∀ fr ∈ streamBody g, isVerdictFrame fr = false := by
  intro fr h
  unfold streamBody at h
  by_cases hc : g.configured = false
  · rw [if_pos hc] at h
    simp only [List.mem_cons, List.not_mem_nil, or_false] at h
    rcases h with h | h
    · rw [h, reportErrFrame_shape]; exact isVerdictFrame_quoted _
    · rw [h]; exact isVerdictFrame_done
  · rw [if_neg hc] at h
    cases hs : g.stream with
    | raisesAtCall m =>
      rw [hs] at h
      simp only [List.mem_cons, List.not_mem_nil, or_false] at h
      rcases h with h | h
      · rw [h, gemErrFrame_shape]; exact isVerdictFrame_quoted _
      · rw [h]; exact isVerdictFrame_done
    | notIterable =>
      rw [hs] at h
      simp only [List.mem_cons, List.not_mem_nil, or_false] at h
      rcases h with h | h
      · rw [h, gemErrFrame_shape]; exact isVerdictFrame_quoted _
      · rw [h]; exact isVerdictFrame_done
    | chunks cs err =>
      rw [hs] at h
      simp only [List.mem_append] at h
      rcases h with (h | h) | h
      · obtain ⟨ch, _, hmem⟩ := List.mem_flatMap.mp h
        obtain ⟨t, rfl⟩ := chunkFrames_shape ch fr hmem
        exact isVerdictFrame_fragFrame t
      · rcases streamTail_shape cs err fr h with ⟨m, hfr⟩ | hfr
        · rw [hfr, gemErrFrame_shape]; exact isVerdictFrame_quoted _
        · rw [hfr, noRespFrame_shape]; exact isVerdictFrame_quoted _
      · have hfr : fr = doneFrame := by simpa using h
        rw [hfr]; exact isVerdictFrame_done

/-- The stream body always ends with the terminal frame. -/
theorem streamBody_last (g : GeminiOracle) :
    (streamBody g).getLast? = some doneFrame := by
  unfold streamBody
  by_cases hc : g.configured = false
  · rw [if_pos hc]; rfl
  · rw [if_neg hc]
    cases g.stream with
    | raisesAtCall m => rfl
    | notIterable => rfl
    | chunks cs err => exact List.getLast?_concat _

theorem streamBody_ne_nil (g : GeminiOracle) : streamBody g ≠ [] := by
  intro h
  have := streamBody_last g
  rw [h] at this
  exact Option.noConfusion this

/-! ## Accumulated content vs decoded fragments (claim C2) -/

/-- What the orchestrator accumulates from a frame list has the same
concatenation as the client-side decoded text fragments, after dropping
the fragments that decode to the literal `[DONE]`. -/
theorem accum_eq_decode_filter (frames : List (List Char)) :
    (frames.filterMap accumFromFrame).flatten =
      ((decodedFragments frames).filter (fun t => t ≠ "[DONE]".data)).flatten := by
  induction frames with
  | nil => rfl
  | cons fr frames ih =>
    unfold decodedFragments at ih ⊢
    rw [List.filterMap_cons, List.filterMap_cons]
    have hacc : accumFromFrame fr =
        (if lpre "data: ".data fr then
          (if pyStrip (fr.drop 6) = "[DONE]".data then none
           else if sentimentDetect (pyStrip (fr.drop 6)) = true then none
           else if unescapeClient (stripQuotes (pyStrip (fr.drop 6))) ≠ [] ∧
                   unescapeClient (stripQuotes (pyStrip (fr.drop 6))) ≠ "[DONE]".data then
             some (unescapeClient (stripQuotes (pyStrip (fr.drop 6))))
           else none)
         else none) := rfl
    have hdec : textFragDecode fr =
        (if lpre "data: ".data fr then
          (if pyStrip (fr.drop 6) = "[DONE]".data then none
           else if sentimentDetect (pyStrip (fr.drop 6)) = true then none
           else some (unescapeClient (stripQuotes (pyStrip (fr.drop 6)))))
         else none) := by
      unfold textFragDecode framePayload clientDecode
      by_cases h1 : lpre "data: ".data fr = true
      · rw [if_pos h1, if_pos h1]
      · rw [if_neg h1, if_neg h1]
    rw [hacc, hdec]
    by_cases h1 : lpre "data: ".data fr = true
    · rw [if_pos h1, if_pos h1]
      by_cases h2 : pyStrip (fr.drop 6) = "[DONE]".data
      · rw [if_pos h2, if_pos h2]
        exact ih
      · rw [if_neg h2, if_neg h2]
        by_cases h3 : sentimentDetect (pyStrip (fr.drop 6)) = true
        · rw [if_pos h3, if_pos h3]
          exact ih
        · rw [if_neg h3, if_neg h3]
          by_cases h4 : unescapeClient (stripQuotes (pyStrip (fr.drop 6))) ≠ [] ∧
              unescapeClient (stripQuotes (pyStrip (fr.drop 6))) ≠ "[DONE]".data
          · rw [if_pos h4]
            rw [List.filter_cons]
            rw [if_pos (by simpa using h4.2)]
            rw [List.flatten_cons, List.flatten_cons, ih]
          · rw [if_neg h4]
            rcases Decidable.not_and_iff_or_not.mp h4 with h5 | h5
            · have h5' : unescapeClient (stripQuotes (pyStrip (fr.drop 6))) = [] := by
                by_cases h6 : unescapeClient (stripQuotes (pyStrip (fr.drop 6))) = []
                · exact h6
                · exact absurd h6 (by simpa using h5)
              rw [List.filter_cons]
              rw [if_pos (by rw [h5']; simp)]
              rw [List.flatten_cons, h5', ih]
              rfl
            · have h5' : unescapeClient (stripQuotes (pyStrip (fr.drop 6))) = "[DONE]".data := by
                by_cases h6 : unescapeClient (stripQuotes (pyStrip (fr.drop 6))) = "[DONE]".data
                · exact h6
                · exact absurd h6 (by simpa using h5)
              rw [List.filter_cons]
              rw [if_neg (by rw [h5']; simp)]
              exact ih
    · rw [if_neg h1, if_neg h1]
      exact ih

/-! ## Persistence bookkeeping -/

theorem assistantContents_nil : assistantContents [] = [] := rfl

theorem assistantContents_msg (m : List Char) (rest : List PersistAct) :
    assistantContents (PersistAct.message "assistant".data m :: rest) =
      m :: assistantContents rest := by
  unfold assistantContents
  rw [List.filterMap_cons]
  simp only []
  rw [if_pos trivial]

theorem assistantContents_src (s : List Source) (rest : List PersistAct) :
    assistantContents (PersistAct.sources s :: rest) = assistantContents rest := by
  unfold assistantContents
  rw [List.filterMap_cons]

theorem persistedSourceLists_nil : persistedSourceLists [] = [] := rfl

theorem persistedSourceLists_msg (role m : List Char) (rest : List PersistAct) :
    persistedSourceLists (PersistAct.message role m :: rest) =
      persistedSourceLists rest := by
  unfold persistedSourceLists
  rw [List.filterMap_cons]

theorem persistedSourceLists_src (s : List Source) (rest : List PersistAct) :
    persistedSourceLists (PersistAct.sources s :: rest) =
      [s] ++ persistedSourceLists rest := by
  unfold persistedSourceLists
  rw [List.filterMap_cons]
  simp only []
  rfl

/-- The run record for a non-empty search result list, with the lets of
`generate_research_stream` substituted. -/
theorem research_stream_nonempty (defaultId : List Char) (g : GeminiOracle)
    (results : List RawResult) (h : results ≠ []) :
    generate_research_stream defaultId g results =
      { frames := generate_sentiment_report g results,
        persists := [
          PersistAct.message "assistant".data
            (if pyStrip ((generate_sentiment_report g results).filterMap
                  accumFromFrame).flatten ≠ [] then
               pyStrip ((generate_sentiment_report g results).filterMap
                  accumFromFrame).flatten
             else "Report generated successfully".data),
          PersistAct.sources (mainSources defaultId results)] } := by
  unfold generate_research_stream
  rw [if_neg h]

/-! ## Whitespace-only joins (claim C7) -/

theorem pyStrip_all_ws (l : List Char) (h : ∀ c ∈ l, pyWs c = true) :
    pyStrip l = [] := by
  unfold pyStrip
  have h1 : l.dropWhile pyWs = [] := List.dropWhile_eq_nil_iff.mpr (by simpa using h)
  rw [h1]
  rfl

theorem spaceJoin_mem (ts : List (List Char)) (c : Char) (h : c ∈ spaceJoin ts) :
    c = ' ' ∨ ∃ t ∈ ts, c ∈ t := by
  induction ts with
  | nil => exact absurd h (by simp [spaceJoin])
  | cons t ts ih =>
    cases ts with
    | nil => exact Or.inr ⟨t, by simp, by simpa [spaceJoin] using h⟩
    | cons t2 ts2 =>
      rw [show spaceJoin (t :: t2 :: ts2) = t ++ ' ' :: spaceJoin (t2 :: ts2) from rfl] at h
      rcases List.mem_append.mp h with h | h
      · exact Or.inr ⟨t, by simp, h⟩
      · rcases List.mem_cons.mp h with h | h
        · exact Or.inl h
        · rcases ih h with h | ⟨t', ht', hc⟩
          · exact Or.inl h
          · exact Or.inr ⟨t', List.mem_cons_of_mem _ ht', hc⟩

/-! ## Context-block indexing (claim C5) -/

theorem contextPartsAux_get (rs : List RawResult) : ∀ (i k : Nat)
    (hk : k < (contextPartsAux i rs).length) (hk' : k < rs.length),
    (contextPartsAux i rs).get ⟨k, hk⟩ = contextPart (i + k) (rs.get ⟨k, hk'⟩) := by
  induction rs with
  | nil => intro i k hk hk'; exact absurd hk' (by simp)
  | cons r rs ih =>
    intro i k hk hk'
    cases k with
    | zero => rfl
    | succ k =>
      have hk2' : k < rs.length := Nat.lt_of_succ_lt_succ (by simpa using hk')
      have hk2 : k < (contextPartsAux (i + 1) rs).length := by
        have hlen : (contextPartsAux i (r :: rs)).length =
            (contextPartsAux (i + 1) rs).length + 1 := rfl
        omega
      have e : (contextPartsAux i (r :: rs)).get ⟨k + 1, hk⟩ =
          (contextPartsAux (i + 1) rs).get ⟨k, hk2⟩ := rfl
      rw [e, ih (i + 1) k hk2 hk2']
      rw [show i + (k + 1) = (i + 1) + k by omega]
      rfl

/-! ## Concrete fixtures for witnesses and counterexamples -/

/-- A trivial Gemini oracle: configured, no usable sentiment text, an
empty chunk stream that ends cleanly. -/
def gW : GeminiOracle := ⟨true, GemSentOutcome.noText, GemStreamOutcome.chunks [] none⟩

/-- A one-element search result list with every key absent. -/
def rW : List RawResult := [⟨none, none, none⟩]

/-- An oracle whose report stream yields one text chunk that ends in a
space. -/
def gFrag : GeminiOracle :=
  ⟨true, GemSentOutcome.noText, GemStreamOutcome.chunks [⟨some "hi ".data, none⟩] none⟩

/-! ## The claims -/

/-- C1: when the search collaborator returns an empty result list the run
emits exactly one error frame followed by the terminal frame and persists
no sources — but, contrary to the claim, it does persist the error text as
one assistant message (`main.py` line 88). -/
theorem C1_empty_search_emits_error_done (defaultId : List Char) (g : GeminiOracle)
    (srch : SearchOutcome) (h : search_reddit srch = []) :
    (runPipeline defaultId g srch).frames = [noResultsFrame, doneFrame] ∧
    assistantContents (runPipeline defaultId g srch).persists = [noResultsMsg] ∧
    persistedSourceLists (runPipeline defaultId g srch).persists = [] := by
  unfold runPipeline
  rw [h]
  unfold generate_research_stream
  rw [if_pos rfl]
  refine ⟨rfl, ?_, ?_⟩
  · rw [assistantContents_msg, assistantContents_nil]
  · rw [persistedSourceLists_msg, persistedSourceLists_nil]

theorem C1_witness :
    (runPipeline [] gW (SearchOutcome.ok none)).frames = [noResultsFrame, doneFrame] :=
  (C1_empty_search_emits_error_done [] gW (SearchOutcome.ok none) rfl).1

/-- C1 counterexample: on the empty-search path an assistant message is
persisted, refuting the claim's "no assistant message ... persisted". -/
theorem C1_error_message_is_persisted :
    search_reddit (SearchOutcome.ok none) = [] ∧
    assistantContents (runPipeline [] gW (SearchOutcome.ok none)).persists ≠ [] := by
  decide

/-- C2: for a non-empty result list exactly one assistant message is
persisted, and its content is the `strip()`ped concatenation of the
decoded text-fragment payloads that are not the literal `[DONE]`, with the
fixed fallback when that is empty — not the plain concatenation of all
decoded fragments the claim states. -/
theorem C2_persisted_content_from_fragments (defaultId : List Char) (g : GeminiOracle)
    (results : List RawResult) (h : results ≠ []) :
    assistantContents (generate_research_stream defaultId g results).persists =
      [if pyStrip ((decodedFragments
            (generate_research_stream defaultId g results).frames).filter
            (fun t => t ≠ "[DONE]".data)).flatten ≠ [] then
         pyStrip ((decodedFragments
            (generate_research_stream defaultId g results).frames).filter
            (fun t => t ≠ "[DONE]".data)).flatten
       else "Report generated successfully".data] := by
  rw [research_stream_nonempty defaultId g results h]
  simp only []
  rw [assistantContents_msg, assistantContents_src, assistantContents_nil]
  rw [accum_eq_decode_filter]

theorem C2_witness :
    assistantContents (generate_research_stream [] gFrag rW).persists =
      [if pyStrip ((decodedFragments
            (generate_research_stream [] gFrag rW).frames).filter
            (fun t => t ≠ "[DONE]".data)).flatten ≠ [] then
         pyStrip ((decodedFragments
            (generate_research_stream [] gFrag rW).frames).filter
            (fun t => t ≠ "[DONE]".data)).flatten
       else "Report generated successfully".data] :=
  C2_persisted_content_from_fragments [] gFrag rW (by decide)

/-- C2 counterexample: a run whose single fragment decodes to `"hi "`
persists `"hi"` — the concatenation of the decoded fragments is non-empty
yet differs from the persisted content, because the orchestrator strips
it before persisting. -/
theorem C2_strip_breaks_plain_concatenation :
    (decodedFragments (generate_research_stream [] gFrag rW).frames).flatten ≠ [] ∧
    assistantContents (generate_research_stream [] gFrag rW).persists ≠
      [(decodedFragments (generate_research_stream [] gFrag rW).frames).flatten] := by
  decide

/-- C3: for a non-empty result list the stream is the verdict frame
followed by the stream body; the first frame is classified as the
verdict, it is the only such frame, and the terminal frame is always
last (on the error paths too, which the universally quantified oracle
covers). -/
theorem C3_verdict_first_done_last (defaultId : List Char) (g : GeminiOracle)
    (results : List RawResult) (h : results ≠ []) :
    (generate_research_stream defaultId g results).frames =
      verdictFrame (analyze_sentiment g (ragSentimentTexts results)).1 :: streamBody g ∧
    isVerdictFrame (verdictFrame (analyze_sentiment g (ragSentimentTexts results)).1) = true ∧
    ((generate_research_stream defaultId g results).frames.filter isVerdictFrame).length = 1 ∧
    (∀ fr ∈ streamBody g, isVerdictFrame fr = false) ∧
    (generate_research_stream defaultId g results).frames.getLast? = some doneFrame := by
  have hf : (generate_research_stream defaultId g results).frames =
      verdictFrame (analyze_sentiment g (ragSentimentTexts results)).1 :: streamBody g := by
    rw [research_stream_nonempty defaultId g results h]
    rfl
  have hfilter : (streamBody g).filter isVerdictFrame = [] := by
    rw [List.filter_eq_nil_iff]
    intro a ha
    simp [streamBody_no_verdict g a ha]
  refine ⟨hf, isVerdictFrame_verdict _, ?_, streamBody_no_verdict g, ?_⟩
  · have hft := isVerdictFrame_verdict (analyze_sentiment g (ragSentimentTexts results)).1
    rw [hf, List.filter_cons, if_pos hft, hfilter]
    rfl
  · rw [hf]
    have hlast := streamBody_last g
    cases hsb : streamBody g with
    | nil => exact absurd hsb (streamBody_ne_nil g)
    | cons b l =>
      rw [hsb] at hlast
      rw [List.getLast?_cons_cons]
      exact hlast

theorem C3_witness :
    (generate_research_stream [] gW rW).frames.getLast? = some doneFrame :=
  (C3_verdict_first_done_last [] gW rW (by decide)).2.2.2.2

/-- C4: the encode/decode round trip holds for every fragment containing
a double quote and a newline, provided the fragment contains no
backslash; decoding per the client contract then reproduces it exactly. -/
theorem C4_roundtrip_without_backslash (s : List Char) (hq : qc ∈ s) (hn : '\n' ∈ s)
    (hb : bs ∉ s) :
    textFragDecode (fragFrame s) = some s := by
  unfold textFragDecode
  rw [fragFrame_quoted_shape, framePayload_quoted]
  simp only []
  have hne : ¬(qc :: escapeFrag s ++ [qc] = "[DONE]".data) := by
    intro hc
    have h2 := congrArg List.head? hc
    rw [show ("[DONE]".data) = '[' :: "DONE]".data from rfl, List.cons_append] at h2
    simp only [List.head?_cons, Option.some.injEq] at h2
    exact absurd h2 (by decide)
  rw [if_neg hne]
  have hsd : sentimentDetect (qc :: escapeFrag s ++ [qc]) = false := by
    rw [List.cons_append]
    exact sentimentDetect_quoted _
  rw [hsd]
  simp only [Bool.false_eq_true, if_false]
  rw [clientDecode_fragPayload s hb]

theorem C4_witness :
    textFragDecode (fragFrame [qc, '\n']) = some [qc, '\n'] :=
  C4_roundtrip_without_backslash [qc, '\n'] (by decide) (by decide) (by decide)

/-- C4 counterexample: the fragment `"\n\\n"` (a quote, a newline, then a
literal backslash followed by `n`) contains a double quote and a newline,
yet the round trip does not reproduce it: the client decodes the escaped
backslash-`n` pair as a newline. -/
theorem C4_backslash_breaks_roundtrip :
    qc ∈ ([qc, '\n', bs, 'n'] : List Char) ∧ '\n' ∈ ([qc, '\n', bs, 'n'] : List Char) ∧
    textFragDecode (fragFrame [qc, '\n', bs, 'n']) ≠ some [qc, '\n', bs, 'n'] := by
  decide

/-- C5: exactly one source list is persisted; it equals the prompt-side
source list (same 8-item cap, same provider order); both the sources and
the prompt context depend only on the first 8 results and the sentiment
texts only on the first 5; the `k`-th context block carries the 1-based
citation index `k+1` of the `k`-th used result, and the `k`-th persisted
source is built from the `k`-th result, never re-ranked. -/
theorem C5_first8_sources_first5_sentiment (defaultId : List Char) (g : GeminiOracle)
    (results : List RawResult) (h : results ≠ []) :
    persistedSourceLists (generate_research_stream defaultId g results).persists =
      [mainSources defaultId results] ∧
    mainSources defaultId results = ragSources defaultId results ∧
    mainSources defaultId results = mainSources defaultId (results.take 8) ∧
    ragContextParts results = ragContextParts (results.take 8) ∧
    ragSentimentTexts results = ragSentimentTexts (results.take 5) ∧
    (mainSources defaultId results).length ≤ 8 ∧
    (∀ k (hk : k < (mainSources defaultId results).length)
       (hk8 : k < (results.take 8).length),
       (mainSources defaultId results).get ⟨k, hk⟩ =
         mkSourceMain defaultId ((results.take 8).get ⟨k, hk8⟩)) ∧
    (∀ k (hk : k < (ragContextParts results).length)
       (hk8 : k < (results.take 8).length),
       (ragContextParts results).get ⟨k, hk⟩ =
         contextPart k ((results.take 8).get ⟨k, hk8⟩)) := by
  refine ⟨?_, rfl, ?_, ?_, ?_, ?_, ?_, ?_⟩
  · rw [research_stream_nonempty defaultId g results h]
    simp only []
    rw [persistedSourceLists_msg, persistedSourceLists_src, persistedSourceLists_nil]
    rfl
  · simp [mainSources, List.take_take]
  · simp [ragContextParts, List.take_take]
  · simp [ragSentimentTexts, List.take_take]
  · unfold mainSources
    rw [List.length_map, List.length_take]
    exact Nat.min_le_left 8 _
  · intro k hk hk8
    unfold mainSources at hk ⊢
    simp [List.get_eq_getElem, List.getElem_map]
  · intro k hk hk8
    have h2 := contextPartsAux_get (results.take 8) 0 k hk hk8
    show (contextPartsAux 0 (results.take 8)).get ⟨k, hk⟩ = _
    rw [h2, Nat.zero_add]

theorem C5_witness :
    persistedSourceLists (generate_research_stream [] gW rW).persists =
      [mainSources [] rW] :=
  (C5_first8_sources_first5_sentiment [] gW rW (by decide)).1

/-- C6: the sentiment classifier is total; an unconfigured model gives the
confidence-0.0 default without a model call; a raised or text-free model
call gives the confidence-0.0 default; a response whose text fails JSON
parsing gives the confidence-0.3 default; but — contrary to the claim — a
response that parses as valid JSON that is not an object also gives the
confidence-0.0 default (the `.get` `AttributeError` reaches the outer
handler). -/
theorem C6_sentiment_failure_modes (g : GeminiOracle) (texts : List (List Char)) :
    (g.configured = false → analyze_sentiment g texts = (defaultVerdict00, false)) ∧
    (g.configured = true → pyStrip (spaceJoin (texts.take 5)) ≠ [] →
      ((∀ m, g.sent = GemSentOutcome.raises m →
          analyze_sentiment g texts = (defaultVerdict00, true)) ∧
       (g.sent = GemSentOutcome.noText →
          analyze_sentiment g texts = (defaultVerdict00, true)) ∧
       (∀ s, g.sent = GemSentOutcome.text s → jsonParse (fenceStrip (pyStrip s)) = none →
          analyze_sentiment g texts = (defaultVerdict03, true)) ∧
       (∀ s v, g.sent = GemSentOutcome.text s → jsonParse (fenceStrip (pyStrip s)) = some v →
          (∀ fs, v ≠ JVal.jobj fs) →
          analyze_sentiment g texts = (defaultVerdict00, true)))) := by
  constructor
  · intro hc
    unfold analyze_sentiment
    rw [hc]
    rfl
  · intro hc hne
    have hcf : ¬(g.configured = false) := by rw [hc]; decide
    refine ⟨?_, ?_, ?_, ?_⟩
    · intro m hs
      unfold analyze_sentiment
      rw [if_neg hcf, if_neg hne, hs]
    · intro hs
      unfold analyze_sentiment
      rw [if_neg hcf, if_neg hne, hs]
    · intro s hs hp
      unfold analyze_sentiment
      rw [if_neg hcf, if_neg hne, hs]
      show (classifyResponseText s, true) = (defaultVerdict03, true)
      unfold classifyResponseText
      rw [hp]
    · intro s v hs hp hv
      unfold analyze_sentiment
      rw [if_neg hcf, if_neg hne, hs]
      show (classifyResponseText s, true) = (defaultVerdict00, true)
      unfold classifyResponseText
      rw [hp]
      cases v with
      | jnull => rfl
      | jbool b => rfl
      | jnum n => rfl
      | jnan => rfl
      | jinf => rfl
      | jninf => rfl
      | jstr s2 => rfl
      | jarr a => rfl
      | jobj fs => exact absurd rfl (hv fs)

theorem C6_witness :
    analyze_sentiment ⟨true, GemSentOutcome.text "notjson".data,
        GemStreamOutcome.chunks [] none⟩ ["x".data] = (defaultVerdict03, true) :=
  (((C6_sentiment_failure_modes ⟨true, GemSentOutcome.text "notjson".data,
      GemStreamOutcome.chunks [] none⟩ ["x".data]).2 rfl (by decide)).2.2.1)
    "notjson".data rfl rfl

/-- C6 counterexample: a model response of `NaN` (accepted by
`json.loads`, parsing to a float) or of `5` — JSON that parses but is not
the expected object — yields the confidence-0.0 default, not the
confidence-0.3 default the claim assigns to every response that is not
parseable as the expected JSON object. -/
theorem C6_valid_nonobject_gives_confidence0 :
    (analyze_sentiment ⟨true, GemSentOutcome.text "NaN".data,
        GemStreamOutcome.chunks [] none⟩ ["x".data]).1 = defaultVerdict00 ∧
    (analyze_sentiment ⟨true, GemSentOutcome.text "5".data,
        GemStreamOutcome.chunks [] none⟩ ["x".data]).1 = defaultVerdict00 ∧
    defaultVerdict00 ≠ defaultVerdict03 := by
  decide

/-- C7: when every character of every text is whitespace, the combined
joined text strips to empty and the classifier returns the
score-50/Neutral/confidence-0.0 default without invoking the model. -/
theorem C7_whitespace_texts_no_model_call (g : GeminiOracle) (texts : List (List Char))
    (h : ∀ t ∈ texts, ∀ c ∈ t, pyWs c = true) :
    analyze_sentiment g texts = (defaultVerdict00, false) := by
  have hstrip : pyStrip (spaceJoin (texts.take 5)) = [] := by
    apply pyStrip_all_ws
    intro c hc
    rcases spaceJoin_mem _ c hc with h1 | ⟨t, ht, hc'⟩
    · rw [h1]; decide
    · exact h t (List.take_subset _ _ ht) c hc'
  unfold analyze_sentiment
  by_cases hcf : g.configured = false
  · rw [if_pos hcf]
  · rw [if_neg hcf, if_pos hstrip]

theorem C7_witness :
    analyze_sentiment gW [[' '], []] = (defaultVerdict00, false) :=
  C7_whitespace_texts_no_model_call gW [[' '], []] (by decide)

/-- C8: when the search collaborator raises (or is unconfigured) the
search operation returns the empty list, and the whole pipeline run is
identical to one whose search returned an empty result list. -/
theorem C8_search_faults_become_empty (defaultId : List Char) (g : GeminiOracle)
    (srch : SearchOutcome)
    (h : srch = SearchOutcome.unconfigured ∨ ∃ m, srch = SearchOutcome.raises m) :
    search_reddit srch = [] ∧
    runPipeline defaultId g srch = runPipeline defaultId g (SearchOutcome.ok (some [])) := by
  rcases h with h | ⟨m, h⟩ <;> subst h <;> exact ⟨rfl, rfl⟩

theorem C8_witness :
    search_reddit SearchOutcome.unconfigured = [] ∧
    runPipeline [] gW SearchOutcome.unconfigured =
      runPipeline [] gW (SearchOutcome.ok (some [])) :=
  C8_search_faults_become_empty [] gW SearchOutcome.unconfigured (Or.inl rfl)

/-- C9: `models.py` declares every default id as the plain class attribute
`id: str = str(uuid.uuid4())`, evaluated once at class-definition time, so
every Source built by either pipeline site and every Message built without
an explicit id carries that one shared default id — distinct records get
equal ids, not unique ones. -/
theorem C9_default_ids_all_equal (defaultId : List Char) (results : List RawResult) :
    (∀ s ∈ mainSources defaultId results, s.id = defaultId) ∧
    (∀ s ∈ ragSources defaultId results, s.id = defaultId) ∧
    (∀ role content, (mkMessage defaultId role content).id = defaultId) := by
  refine ⟨?_, ?_, fun _ _ => rfl⟩
  · intro s hs
    unfold mainSources at hs
    obtain ⟨r, _, rfl⟩ := List.mem_map.mp hs
    rfl
  · intro s hs
    unfold ragSources at hs
    obtain ⟨r, _, rfl⟩ := List.mem_map.mp hs
    rfl

theorem C9_witness :
    (mkSourceMain "d".data ⟨none, none, none⟩).id =
      (mkSourceMain "d".data ⟨some "t".data, none, none⟩).id := by
  have h := (C9_default_ids_all_equal "d".data
      [⟨none, none, none⟩, ⟨some "t".data, none, none⟩]).1
  rw [h (mkSourceMain "d".data ⟨none, none, none⟩) (by decide),
      h (mkSourceMain "d".data ⟨some "t".data, none, none⟩) (by decide)]

/-- C10: the generated chat title is never empty and never longer than 30
characters; it is the stripped join of the query's first four
whitespace-separated words, truncated to 27 characters plus `...` when
longer than 30, and the literal `New Research` when that is empty. -/
theorem C10_title_nonempty_bounded (query : List Char) :
    generate_chat_title query ≠ [] ∧
    (generate_chat_title query).length ≤ 30 ∧
    (pyStrip (spaceJoin ((pySplitWs query).take 4)) = [] →
       generate_chat_title query = "New Research".data) ∧
    ((pyStrip (spaceJoin ((pySplitWs query).take 4))).length ≤ 30 →
       pyStrip (spaceJoin ((pySplitWs query).take 4)) ≠ [] →
       generate_chat_title query = pyStrip (spaceJoin ((pySplitWs query).take 4))) ∧
    ((pyStrip (spaceJoin ((pySplitWs query).take 4))).length > 30 →
       generate_chat_title query =
         (pyStrip (spaceJoin ((pySplitWs query).take 4))).take 27 ++ "...".data) := by
  have e : generate_chat_title query =
      (if (if (pyStrip (spaceJoin ((pySplitWs query).take 4))).length > 30 then
              (pyStrip (spaceJoin ((pySplitWs query).take 4))).take 27 ++ "...".data
            else pyStrip (spaceJoin ((pySplitWs query).take 4))) = [] then
         "New Research".data
       else (if (pyStrip (spaceJoin ((pySplitWs query).take 4))).length > 30 then
              (pyStrip (spaceJoin ((pySplitWs query).take 4))).take 27 ++ "...".data
            else pyStrip (spaceJoin ((pySplitWs query).take 4)))) := rfl
  by_cases h30 : (pyStrip (spaceJoin ((pySplitWs query).take 4))).length > 30
  · have hne : (pyStrip (spaceJoin ((pySplitWs query).take 4))).take 27 ++ "...".data ≠ [] := by
      simp
    have e2 : generate_chat_title query =
        (pyStrip (spaceJoin ((pySplitWs query).take 4))).take 27 ++ "...".data := by
      rw [e, if_pos h30, if_neg hne]
    refine ⟨?_, ?_, ?_, ?_, fun _ => e2⟩
    · rw [e2]; exact hne
    · rw [e2, List.length_append, List.length_take]
      have hmin : min 27 (pyStrip (spaceJoin ((pySplitWs query).take 4))).length = 27 := by
        omega
      rw [hmin]
      decide
    · intro hnil
      exfalso
      rw [hnil] at h30
      simp at h30
    · intro hle _
      exfalso
      omega
  · have hle : (pyStrip (spaceJoin ((pySplitWs query).take 4))).length ≤ 30 := by omega
    have e2 : generate_chat_title query =
        (if pyStrip (spaceJoin ((pySplitWs query).take 4)) = [] then "New Research".data
         else pyStrip (spaceJoin ((pySplitWs query).take 4))) := by
      rw [e, if_neg h30]
    by_cases hnil : pyStrip (spaceJoin ((pySplitWs query).take 4)) = []
    · have e3 : generate_chat_title query = "New Research".data := by
        rw [e2, if_pos hnil]
      refine ⟨?_, ?_, fun _ => e3, ?_, ?_⟩
      · rw [e3]; decide
      · rw [e3]; decide
      · intro _ hne'; exact absurd hnil hne'
      · intro hgt; exfalso; omega
    · have e3 : generate_chat_title query = pyStrip (spaceJoin ((pySplitWs query).take 4)) := by
        rw [e2, if_neg hnil]
      refine ⟨?_, ?_, ?_, fun _ _ => e3, ?_⟩
      · rw [e3]; exact hnil
      · rw [e3]; exact hle
      · intro hc; exact absurd hc hnil
      · intro hgt; exfalso; omega

end SocialScour
